import Mathlib

/-!
Verification of the CloreAiBot polling-and-reconciliation core.

Shallow embedding of the Python sources:
  * `src/clore_api/client.py`   (rate-limited API client, GPU/price parsing)
  * `src/database/crud.py`      (order ledger, balance history, snapshots, alerts)
  * `src/services/monitoring/server_monitor.py` (order reconciliation loop)
  * `src/services/monitoring/hunt_monitor.py`   (hunt filter, dedup, auto-rent)

Money, balances and timestamps are modelled as rationals (timestamps are
seconds).  Database tables are modelled as lists of rows; each CRUD call
commits individually, exactly as in the source where every helper ends with
`await db.commit()`.  Fallible Python code (exceptions) is modelled with
`Except` / explicit error components.
-/

namespace CloreBot

/-- Equality on `Except` results is decidable (used to evaluate the embedded
fallible functions on concrete inputs). -/
instance {ε α : Type} [DecidableEq ε] [DecidableEq α] : DecidableEq (Except ε α) := fun x y =>
  match x, y with
  | .ok a, .ok b =>
    match decEq a b with
    | isTrue h => isTrue (h ▸ rfl)
    | isFalse h => isFalse fun hh => h (Except.ok.inj hh)
  | .error a, .error b =>
    match decEq a b with
    | isTrue h => isTrue (h ▸ rfl)
    | isFalse h => isFalse fun hh => h (Except.error.inj hh)
  | .ok _, .error _ => isFalse fun hh => Except.noConfusion hh
  | .error _, .ok _ => isFalse fun hh => Except.noConfusion hh

/-! ## `clore_api/client.py` -/

/-- A decoded upstream JSON payload: the embedded `code` field, the optional
`error` field, and an abstract stand-in (`body`) for the rest of the decoded
document, so that distinct payloads stay distinguishable. -/
structure ApiResponse where
  code : Option Int
  errorField : Option String
  body : Nat
deriving DecidableEq, Repr

/-- `CloreAPIClient.ERROR_CODES` from `client.py`. -/
def ERROR_CODES (c : Int) : Option String :=
  if c = 0 then some "NORMAL"
  else if c = 1 then some "DATABASE ERROR"
  else if c = 2 then some "INVALID INPUT DATA"
  else if c = 3 then some "INVALID API TOKEN"
  else if c = 4 then some "INVALID ENDPOINT"
  else if c = 5 then some "EXCEEDED 1 request/second limit"
  else if c = 6 then some "Error specified in error field"
  else none

/-- `CloreAPIError(code, message, response)`;  `response` is `None` unless the
constructor was given the decoded payload. -/
structure CloreAPIError where
  code : Int
  message : String
  response : Option ApiResponse
deriving DecidableEq, Repr

/-- `str(e)` for a `CloreAPIError`, i.e. the string passed to
`super().__init__` in `client.py`. -/
def errStr (e : CloreAPIError) : String :=
  "Clore API Error [" ++ toString e.code ++ "]: " ++ e.message

/-- The observable outcome of the HTTP layer inside `_make_request`: either the
response body decoded fine, or `raise_for_status` / the transport / the JSON
decoder failed. -/
inductive TransportOutcome where
  | httpStatusError (status : Nat) (text : String)
  | transportError (msg : String)
  | decodeError (msg : String)
  | decoded (data : ApiResponse)
deriving DecidableEq, Repr

/-- The embedded-code check in the middle of `_make_request`:
`code = data.get("code", -1); if code != 0: raise CloreAPIError(...)`. -/
def checkResponseCode (data : ApiResponse) : Except CloreAPIError ApiResponse :=
  let code := data.code.getD (-1)
  if code ≠ 0 then
    let baseMsg := (ERROR_CODES code).getD "Unknown error"
    let errorMsg := if code = 6 then data.errorField.getD baseMsg else baseMsg
    .error ⟨code, errorMsg, some data⟩
  else
    .ok data

/-- `_make_request` error classification.  Note the control flow of the
source: the `raise CloreAPIError(code, error_msg, data)` for a nonzero
embedded code sits *inside* the `try` block, so it is caught by the trailing
`except Exception as e` and re-raised as `CloreAPIError(-1, str(e))`, with no
attached response. -/
def makeRequestResult (outcome : TransportOutcome) : Except CloreAPIError ApiResponse :=
  match outcome with
  | .httpStatusError status text =>
      .error ⟨-1, "HTTP " ++ toString status ++ ": " ++ text, none⟩
  | .transportError msg => .error ⟨-1, msg, none⟩
  | .decodeError msg => .error ⟨-1, msg, none⟩
  | .decoded data =>
      match checkResponseCode data with
      | .ok d => .ok d
      | .error e => .error ⟨-1, errStr e, none⟩

/-! ### Rate limiting (`_make_request`, lines 56-70)

`_last_request_time` is the instant the previous request was dispatched; a
call entering at time `t` sleeps `max 0 (delay - (t - last))` and dispatches
when the sleep ends. -/

/-- `self._request_delay = 1.1` seconds. -/
def requestDelay : ℚ := 11 / 10

/-- The client's mutable `_last_request_time`. -/
structure ClientState where
  lastRequestTime : Option ℚ
deriving DecidableEq, Repr

/-- Dispatch logic of `_make_request`: returns the time the request actually
goes out and the updated client state (the source stores `datetime.now()`
after the sleep, i.e. the dispatch instant). -/
def dispatchRequest (st : ClientState) (t : ℚ) : ℚ × ClientState :=
  let wait : ℚ :=
    match st.lastRequestTime with
    | none => 0
    | some last => if t - last < requestDelay then requestDelay - (t - last) else 0
  let dispatch := t + wait
  (dispatch, ⟨some dispatch⟩)

/-! ### GPU / price parsing helpers

String manipulation is modelled on the underlying character lists with
structural recursion, mirroring CPython's semantics for the operations the
source uses (`split`, `in`, `replace`, `upper`, `strip`, `int`). -/

/-- Index of the first occurrence of `sep` as a contiguous sublist. -/
def findSubstrIdx (sep : List Char) : List Char → Option Nat
  | [] => if sep.isEmpty then some 0 else none
  | c :: rest =>
    if sep.isPrefixOf (c :: rest) then some 0
    else (findSubstrIdx sep rest).map (· + 1)

/-- Python `s.split(sep, 1)` when `sep` occurs in `s`: the prefix before the
first occurrence and everything after it (`none` when `sep` is absent; the
source never splits on an empty separator). -/
def splitOnce (s sep : String) : Option (String × String) :=
  if sep.data.isEmpty then none
  else
    match findSubstrIdx sep.data s.data with
    | none => none
    | some i => some (⟨s.data.take i⟩, ⟨s.data.drop (i + sep.data.length)⟩)

/-- Python `sub in s` (substring containment). -/
def strContains (s sub : String) : Bool :=
  sub.data.isEmpty || (findSubstrIdx sub.data s.data).isSome

/-- The prefix of `s` before the first occurrence of `sep`
(Python `s.split(sep)[0]`). -/
def firstPartBefore (s sep : String) : String :=
  match findSubstrIdx sep.data s.data with
  | some i => ⟨s.data.take i⟩
  | none => s

/-- Python `s.replace(pat, repl)` (all non-overlapping occurrences, left to
right); fuelled by the input length to stay structural. -/
def replaceAllAux (pat repl : List Char) : Nat → List Char → List Char
  | _, [] => []
  | 0, l => l
  | fuel + 1, c :: rest =>
    if pat.isPrefixOf (c :: rest) then
      repl ++ replaceAllAux pat repl fuel ((c :: rest).drop pat.length)
    else c :: replaceAllAux pat repl fuel rest

/-- Python `s.replace(pat, repl)` for a nonempty `pat` (the source only
replaces nonempty literals). -/
def strReplace (s pat repl : String) : String :=
  if pat.data.isEmpty then s
  else ⟨replaceAllAux pat.data repl.data s.data.length s.data⟩

/-- Python `s.upper()` (ASCII, which covers every string the source
uppercases). -/
def strUpper (s : String) : String := ⟨s.data.map Char.toUpper⟩

/-- Python `s.strip()` (whitespace from both ends). -/
def pyTrim (l : List Char) : List Char :=
  ((l.dropWhile Char.isWhitespace).reverse.dropWhile Char.isWhitespace).reverse

/-- Digit run as accepted by Python `int`: after a leading digit, digits with
single underscores allowed between digits only. -/
def pyDigitsOk : List Char → Bool
  | [] => true
  | c :: rest =>
    if c.isDigit then pyDigitsOk rest
    else if c = '_' then
      match rest with
      | [] => false
      | d :: rest2 => d.isDigit && pyDigitsOk rest2
    else false

/-- Numeric value of a digit run, skipping underscores. -/
def digitsVal (cs : List Char) : Nat :=
  cs.foldl (fun acc c => if c.isDigit then acc * 10 + (c.toNat - 48) else acc) 0

/-- Head of a character list is an ASCII digit. -/
def headIsDigit : List Char → Bool
  | [] => false
  | c :: _ => c.isDigit

/-- Python `int(s)` on a decoded string: optional surrounding whitespace,
optional sign, then a digit run (`none` models `ValueError`). -/
def pyIntOfString (s : String) : Option Int :=
  match pyTrim s.data with
  | [] => none
  | '+' :: rest =>
      if headIsDigit rest && pyDigitsOk rest then some (digitsVal rest) else none
  | '-' :: rest =>
      if headIsDigit rest && pyDigitsOk rest then some (-(digitsVal rest : Int)) else none
  | cs =>
      if headIsDigit cs && pyDigitsOk cs then some (digitsVal cs) else none

/-- `CloreAPIClient.extract_gpu_info`: `"4x NVIDIA GeForce RTX 3070"` maps to
`(4, "RTX 3070")`; a string without the `"x "` separator maps to
`(1, original)`; a non-integer prefix before the first `"x "` raises
`ValueError` (modelled as `.error`). -/
def extract_gpu_info (gpu_string : String) : Except String (Int × String) :=
  match splitOnce gpu_string "x " with
  | none => .ok (1, gpu_string)
  | some (pre, rest) =>
    match pyIntOfString pre with
    | none => .error ("invalid literal for int with base 10: " ++ pre)
    | some n => .ok (n, strReplace (strReplace rest "NVIDIA GeForce " "") "NVIDIA " "")

/-- `price.usd.on_demand_clore` and `price.on_demand.CLORE-Blockchain` of a
marketplace listing. -/
structure PriceInfo where
  usdOnDemandClore : Option ℚ
  onDemandClore : Option ℚ
deriving DecidableEq, Repr

/-- `rating.avg` / `rating.cnt` (decoded with their `.get(..., 0)` defaults). -/
structure RatingInfo where
  avg : ℚ
  cnt : Nat
deriving DecidableEq, Repr

/-- `specs.net` (only the country code is read by the core). -/
structure NetInfo where
  cc : String
deriving DecidableEq, Repr

/-- The `specs` sub-document of a listing, with the fields the core reads
(each already carrying its `.get` default). -/
structure SpecsInfo where
  gpu : String
  gpuram : ℚ
  cpu : String
  ram : ℚ
  net : NetInfo
  stock_pl : List ℚ
deriving DecidableEq, Repr

/-- A marketplace / owned-server listing as read by the watchers. -/
structure Server where
  id : Int
  specs : SpecsInfo
  price : PriceInfo
  rented : Bool
  online : Bool
  rating : RatingInfo
  reliability : ℚ
deriving DecidableEq, Repr

/-- `CloreAPIClient.extract_server_price` (the CLORE→USD factor
`settings.clore_to_usd` is passed explicitly). -/
def extract_server_price (cloreToUsd : ℚ) (server : Server) : Option ℚ × Option String :=
  match server.price.usdOnDemandClore with
  | some p => (some p, some "USD")
  | none =>
    match server.price.onDemandClore with
    | some c => (some (c * cloreToUsd), some "CLORE_FIXED")
    | none => (none, none)

/-! ## `database/crud.py` and `database/models.py`

Tables are lists of rows.  `clore_order_id` carries a `unique=True`
constraint in `models.py`, so an insert with an already-present id raises
`IntegrityError`; `get_db` / the per-call `db.commit()` make every CRUD call
an individually committed transaction, and a failed insert is rolled back
leaving the table unchanged. -/

/-- `Order.status` column (the code writes `active` / `expired` /
`cancelled`). -/
inductive OrderStatus where
  | active
  | expired
  | cancelled
deriving DecidableEq, Repr

/-- A row of the `orders` table, restricted to the columns the reconciliation
core reads or that the claims mention.  Payload columns never read back by
the core (image, ports, env, credential fields, specs) are omitted. -/
structure LedgerOrder where
  clore_order_id : Int
  user_id : Int
  status : OrderStatus
  price_per_day : ℚ
  total_spent : ℚ
  created_at : ℚ
  expires_at : Option ℚ
  cancelled_at : Option ℚ
deriving DecidableEq, Repr

/-- An element of the upstream `my_orders` list, with the fields `save_order`
and the monitor read (each already carrying its `.get` default: `spend`,
`price`, `mrl`, `ct` default to `0`). -/
structure UpstreamOrder where
  id : Int
  spend : ℚ
  price : ℚ
  mrl : ℚ
  ct : ℚ
deriving DecidableEq, Repr

/-- The row `save_order` builds from an upstream order (status is always
`'active'`, `expires_at` is set only when `mrl` is truthy). -/
def orderRowOfUpstream (user_id : Int) (o : UpstreamOrder) : LedgerOrder :=
  { clore_order_id := o.id
    user_id := user_id
    status := .active
    price_per_day := o.price
    total_spent := o.spend
    created_at := o.ct
    expires_at := if o.mrl ≠ 0 then some (o.ct + o.mrl) else none
    cancelled_at := none }

/-- The SQLite error message of a violated unique constraint. -/
def uniqueViolationMsg : String := "UNIQUE constraint failed: orders.clore_order_id"

/-- `crud.save_order`: inserts a fresh row.  The result is the table after the
commit together with the error raised, if any: on a duplicate
`clore_order_id` the commit fails with `IntegrityError` and the table is left
unchanged. -/
def save_order (ledger : List LedgerOrder) (user_id : Int) (o : UpstreamOrder) :
    List LedgerOrder × Option String :=
  if ledger.any (fun r => r.clore_order_id == o.id) then
    (ledger, some uniqueViolationMsg)
  else
    (ledger ++ [orderRowOfUpstream user_id o], none)

/-- The row transformation performed by `crud.update_order_status` on a
matching row: the status is overwritten unconditionally, `total_spent` only
when a value is supplied, `cancelled_at` only when the new status is
`'cancelled'`. -/
def applyStatusUpdate (status : OrderStatus) (total_spent : Option ℚ) (now : ℚ)
    (r : LedgerOrder) : LedgerOrder :=
  { r with
    status := status
    total_spent := total_spent.getD r.total_spent
    cancelled_at := if status = .cancelled then some now else r.cancelled_at }

/-- `crud.update_order_status`: an unconditional `UPDATE ... WHERE
clore_order_id = ?`; returns the table after the commit and `rowcount > 0`. -/
def update_order_status (ledger : List LedgerOrder) (clore_order_id : Int)
    (status : OrderStatus) (total_spent : Option ℚ) (now : ℚ) :
    List LedgerOrder × Bool :=
  (ledger.map fun r =>
      if r.clore_order_id == clore_order_id then applyStatusUpdate status total_spent now r
      else r,
    ledger.any fun r => r.clore_order_id == clore_order_id)

/-- `crud.get_active_orders`: the user's rows with `status = 'active'`
(the `ORDER BY created_at DESC` presentation order is irrelevant to every
claim and kept as table order). -/
def get_active_orders (ledger : List LedgerOrder) (user_id : Int) : List LedgerOrder :=
  ledger.filter fun r => r.user_id == user_id && r.status == OrderStatus.active

/-- A row of the `balance_history` table (columns the claims mention). -/
structure BalanceRecord where
  user_id : Int
  timestamp : ℚ
  clore_balance : ℚ
  btc_balance : ℚ
  usd_equivalent : ℚ
  clore_change_10min : ℚ
  clore_change_1hour : ℚ
  clore_change_24hour : ℚ
deriving DecidableEq, Repr

/-- `ORDER BY timestamp DESC LIMIT 1`: the record with the greatest timestamp
(first listed on ties). -/
def latestRecord : List BalanceRecord → Option BalanceRecord
  | [] => none
  | r :: rest =>
    match latestRecord rest with
    | none => some r
    | some m => if m.timestamp > r.timestamp then some m else some r

/-- The `prev_10min` / `prev_1hour` query of `crud.save_balance_snapshot`:
the most recent record of the user whose timestamp is at least
`now - window`, i.e. *within* the trailing window. -/
def latestWithin (history : List BalanceRecord) (user_id : Int) (cutoff : ℚ) :
    Option BalanceRecord :=
  latestRecord (history.filter fun r => r.user_id == user_id && cutoff ≤ r.timestamp)

/-- `crud.save_balance_snapshot`: computes the 10-minute and 1-hour deltas
from the `latestWithin` query results (0 when the query returns nothing,
`clore_change_24hour` is hard-coded 0), appends the new row and returns it. -/
def save_balance_snapshot (history : List BalanceRecord) (user_id : Int) (now : ℚ)
    (clore_balance btc_balance usd_equivalent : ℚ) :
    List BalanceRecord × BalanceRecord :=
  let prev10 := latestWithin history user_id (now - 600)
  let prev1h := latestWithin history user_id (now - 3600)
  let change10 := match prev10 with
    | some r => clore_balance - r.clore_balance
    | none => 0
  let change1h := match prev1h with
    | some r => clore_balance - r.clore_balance
    | none => 0
  let record : BalanceRecord :=
    { user_id := user_id
      timestamp := now
      clore_balance := clore_balance
      btc_balance := btc_balance
      usd_equivalent := usd_equivalent
      clore_change_10min := change10
      clore_change_1hour := change1h
      clore_change_24hour := 0 }
  (history ++ [record], record)

/-- A row of the `alerts` table.  Only the columns the claims read are kept:
the owner, the `alert_type` discriminator and the entity id embedded in the
message text (`ref_id`); the cosmetic title/message strings are dropped. -/
structure AlertRow where
  user_id : Int
  alert_type : String
  ref_id : Int
deriving DecidableEq, Repr

/-- A row of the `server_snapshots` table as built by
`crud.save_server_snapshot` (the opaque `raw_data` copy is dropped). -/
structure SnapshotRow where
  user_id : Int
  server_id : Int
  snapshot_type : String
  gpu_model : String
  gpu_count : Int
  gpu_ram : ℚ
  cpu_model : String
  ram_gb : ℚ
  price_clore : Option ℚ
  price_usd : Option ℚ
  price_source : String
  is_rented : Bool
  is_online : Bool
  power_limit : Int
  reliability : ℚ
  rating : ℚ
  rating_count : Nat
deriving DecidableEq, Repr

/-- `crud.save_server_snapshot`: extracts GPU count/model (which can raise
`ValueError`, hence `Except`), prices and the averaged power limit, and
appends the snapshot row. -/
def save_server_snapshot (cloreToUsd : ℚ) (snapshots : List SnapshotRow)
    (user_id : Int) (server : Server) (snapshot_type : String) :
    Except String (List SnapshotRow × SnapshotRow) := do
  let specs := server.specs
  let (gpu_count, gpu_model) ← extract_gpu_info specs.gpu
  let (price_usd, price_source) := extract_server_price cloreToUsd server
  let price_clore := server.price.onDemandClore
  let avg_power : ℚ :=
    if specs.stock_pl ≠ [] then specs.stock_pl.sum / specs.stock_pl.length else 0
  let row : SnapshotRow :=
    { user_id := user_id
      server_id := server.id
      snapshot_type := snapshot_type
      gpu_model := gpu_model
      gpu_count := gpu_count
      gpu_ram := specs.gpuram
      cpu_model := specs.cpu
      ram_gb := specs.ram
      price_clore := price_clore
      price_usd := price_usd
      price_source := if price_source = some "CLORE_FIXED" then "fixed" else "market"
      is_rented := server.rented
      is_online := server.online
      -- Python `int()` truncates toward zero; stock power limits are
      -- nonnegative, where truncation and floor agree.
      power_limit := ⌊avg_power⌋
      reliability := server.reliability
      rating := server.rating.avg
      rating_count := server.rating.cnt }
  pure (snapshots ++ [row], row)

/-! ## `services/monitoring/server_monitor.py` — `_check_active_orders`

One reconciliation cycle for one owner.  `get_active_orders` is evaluated
once, before the loops.  Phase 1 walks the upstream list: unseen-among-active
ids go through `save_order`, seen ids through
`update_order_status(..., 'active', spend)`, and every upstream order is then
run through `_check_order_expiry`.  Phase 2 expires the locally active orders
absent upstream and emits an `order_expired` alert for each.  All exceptions
are caught at the end of `_check_active_orders` and merely logged, so an
`IntegrityError` from `save_order` abandons the rest of the cycle while the
individually committed earlier writes stay. -/

/-- `_check_order_expiry`: emits an `order_expiring` alert when `mrl` and
`ct` are truthy and `0 < hours_left <= user.alert_rental_expiry_hours`. -/
def check_order_expiry (user_id : Int) (now expiryThresholdHours : ℚ)
    (o : UpstreamOrder) : List AlertRow :=
  if o.mrl = 0 ∨ o.ct = 0 then []
  else
    let hoursLeft := (o.ct + o.mrl - now) / 3600
    if 0 < hoursLeft ∧ hoursLeft ≤ expiryThresholdHours then
      [⟨user_id, "order_expiring", o.id⟩]
    else []

/-- Phase 1 of `_check_active_orders` (the `for api_order in api_orders`
loop).  `db_order_ids` is the set captured before the loop.  The result is
`.error` when `save_order` hit the unique constraint — carrying the
already-committed state — and `.ok` otherwise. -/
def reconcileUpstream (user_id : Int) (now expiryThresholdHours : ℚ)
    (db_order_ids : List Int) :
    List UpstreamOrder → List LedgerOrder → List AlertRow →
    Except (List LedgerOrder × List AlertRow) (List LedgerOrder × List AlertRow)
  | [], ledger, alerts => .ok (ledger, alerts)
  | o :: rest, ledger, alerts =>
    if db_order_ids.contains o.id then
      let ledger := (update_order_status ledger o.id .active (some o.spend) now).1
      let alerts := alerts ++ check_order_expiry user_id now expiryThresholdHours o
      reconcileUpstream user_id now expiryThresholdHours db_order_ids rest ledger alerts
    else
      match save_order ledger user_id o with
      | (ledger, none) =>
        let alerts := alerts ++ check_order_expiry user_id now expiryThresholdHours o
        reconcileUpstream user_id now expiryThresholdHours db_order_ids rest ledger alerts
      | (ledger, some _) => .error (ledger, alerts)

/-- Phase 2 of `_check_active_orders` (the `for db_order in db_orders` loop):
mark every locally active order absent upstream as expired and alert. -/
def expireMissing (user_id : Int) (now : ℚ) (api_order_ids : List Int) :
    List LedgerOrder → List LedgerOrder → List AlertRow →
    List LedgerOrder × List AlertRow
  | [], ledger, alerts => (ledger, alerts)
  | o :: rest, ledger, alerts =>
    if api_order_ids.contains o.clore_order_id then
      expireMissing user_id now api_order_ids rest ledger alerts
    else
      let ledger := (update_order_status ledger o.clore_order_id .expired none now).1
      let alerts := alerts ++ [⟨user_id, "order_expired", o.clore_order_id⟩]
      expireMissing user_id now api_order_ids rest ledger alerts

/-- `_check_active_orders` for one owner and one poll: the upstream active
list diffed against the ledger, returning the committed ledger and alert
table.  `get_active_orders` is evaluated once, before the loops, exactly as
`db_orders` / `db_order_ids` are captured before the loops in the source. -/
def check_active_orders (user_id : Int) (now expiryThresholdHours : ℚ)
    (api_orders : List UpstreamOrder) (ledger : List LedgerOrder)
    (alerts : List AlertRow) : List LedgerOrder × List AlertRow :=
  match reconcileUpstream user_id now expiryThresholdHours
      ((get_active_orders ledger user_id).map (·.clore_order_id))
      api_orders ledger alerts with
  | .error (ledger1, alerts1) => (ledger1, alerts1)
  | .ok (ledger1, alerts1) =>
    expireMissing user_id now (api_orders.map (·.id))
      (get_active_orders ledger user_id) ledger1 alerts1

/-! ## `services/monitoring/hunt_monitor.py` — criteria filter

`task.filters` is a JSON dict; an absent key is `none`.  The checks of
`_server_matches_criteria` run in source order and short-circuit with
`return False`, so a `ValueError` from the GPU parse can only surface in the
price-per-GPU and GPU-count checks. -/

/-- A hunt task's `filters` dict. -/
structure Criteria where
  gpu_models : Option (List String)
  max_price_per_gpu : Option ℚ
  min_gpu_count : Option Int
  max_gpu_count : Option Int
  min_ram_gb : Option ℚ
  locations : Option (List String)
  min_rating : Option ℚ
deriving DecidableEq, Repr

/-- The GPU-model allow-list check fails: key present, list nonempty and no
model is a case-insensitive substring of the GPU descriptor. -/
def gpuModelsViolated (specs : SpecsInfo) (c : Criteria) : Bool :=
  match c.gpu_models with
  | some models =>
      !models.isEmpty && !(models.any fun m => strContains (strUpper specs.gpu) (strUpper m))
  | none => false

/-- The `max_price_per_gpu` block: a priceless listing fails outright; the
GPU parse can raise; with a positive parsed count the per-GPU price is
compared against the ceiling, otherwise the block is a pass. -/
def maxPriceCheck (cloreToUsd : ℚ) (server : Server) (c : Criteria) :
    Except String Bool :=
  match c.max_price_per_gpu with
  | none => .ok true
  | some ceiling =>
    match (extract_server_price cloreToUsd server).1 with
    | none => .ok false
    | some price =>
      match extract_gpu_info server.specs.gpu with
      | .error e => .error e
      | .ok (gpu_count, _) =>
        if gpu_count > 0 then .ok (decide (¬ price / (gpu_count : ℚ) > ceiling))
        else .ok true

/-- The GPU-count parse of the `min_gpu_count`/`max_gpu_count` blocks:
`int(gpu_str.split('x')[0]) if 'x' in gpu_str else 1`. -/
def simpleGpuCount (gpu_str : String) : Except String Int :=
  if strContains gpu_str "x" then
    match pyIntOfString (firstPartBefore gpu_str "x") with
    | some n => .ok n
    | none => .error ("invalid literal for int with base 10: " ++ firstPartBefore gpu_str "x")
  else .ok 1

/-- The `max_gpu_count` block. -/
def maxCountCheck (specs : SpecsInfo) (c : Criteria) : Except String Bool :=
  match c.max_gpu_count with
  | none => .ok true
  | some maxCount =>
    match simpleGpuCount specs.gpu with
    | .error e => .error e
    | .ok n => .ok (decide (¬ n > maxCount))

/-- The `min_gpu_count` block followed by the `max_gpu_count` block. -/
def gpuCountCheck (specs : SpecsInfo) (c : Criteria) : Except String Bool :=
  match c.min_gpu_count with
  | none => maxCountCheck specs c
  | some minCount =>
    match simpleGpuCount specs.gpu with
    | .error e => .error e
    | .ok n => if n < minCount then .ok false else maxCountCheck specs c

/-- The `min_ram_gb` check fails. -/
def ramViolated (specs : SpecsInfo) (c : Criteria) : Bool :=
  match c.min_ram_gb with
  | some m => decide (specs.ram < m)
  | none => false

/-- The `locations` allow-list check fails: key present, list nonempty and the
country code is not an element. -/
def locationViolated (specs : SpecsInfo) (c : Criteria) : Bool :=
  match c.locations with
  | some locs => !locs.isEmpty && !locs.contains specs.net.cc
  | none => false

/-- The `min_rating` check fails. -/
def ratingViolated (server : Server) (c : Criteria) : Bool :=
  match c.min_rating with
  | some m => decide (server.rating.avg < m)
  | none => false

/-- `_server_matches_criteria`, with the source's sequential short-circuit
order. -/
def server_matches_criteria (cloreToUsd : ℚ) (server : Server) (c : Criteria) :
    Except String Bool :=
  if gpuModelsViolated server.specs c then .ok false else
  match maxPriceCheck cloreToUsd server c with
  | .error e => .error e
  | .ok false => .ok false
  | .ok true =>
    match gpuCountCheck server.specs c with
    | .error e => .error e
    | .ok false => .ok false
    | .ok true =>
      if ramViolated server.specs c then .ok false else
      if locationViolated server.specs c then .ok false else
      if ratingViolated server c then .ok false else
      .ok true

/-- `_filter_servers_by_criteria`: skip rented listings, keep the matching
ones in input order; a `ValueError` raised while matching aborts the scan. -/
def filter_servers_by_criteria (cloreToUsd : ℚ) (servers : List Server)
    (c : Criteria) : Except String (List Server) :=
  match servers with
  | [] => .ok []
  | s :: rest =>
    if s.rented then filter_servers_by_criteria cloreToUsd rest c
    else
      match server_matches_criteria cloreToUsd s c with
      | .error e => .error e
      | .ok matched =>
        match filter_servers_by_criteria cloreToUsd rest c with
        | .error e => .error e
        | .ok tail => .ok (if matched then s :: tail else tail)

/-! ## `hunt_monitor.py` — `_process_found_servers`

The dedup cache is the in-memory `self.found_servers` dict keyed by the
string `f"{task.id}:{server_id}"`, modelled as an association list keyed by
the `(task_id, server_id)` pair.  The auto-rent outcome of
`_auto_rent_server` depends on the upstream order-creation call; it enters
the model as the oracle `rentOutcome`. -/

/-- Mutable columns of a `hunt_tasks` row the processing loop touches. -/
structure HuntTaskState where
  id : Int
  user_id : Int
  servers_found : Nat
  servers_rented : Nat
  max_servers : Nat
  is_active : Bool
  auto_rent : Bool
  last_found_at : Option ℚ
deriving DecidableEq, Repr

/-- `crud.create_hunt_task` (counter columns take their model defaults). -/
def create_hunt_task (id user_id : Int) (max_servers : Nat)
    (is_active auto_rent : Bool) : HuntTaskState :=
  { id := id
    user_id := user_id
    servers_found := 0
    servers_rented := 0
    max_servers := max_servers
    is_active := is_active
    auto_rent := auto_rent
    last_found_at := none }

/-- The dedup cache `self.found_servers`. -/
abbrev DedupCache := List ((Int × Int) × ℚ)

/-- Dict lookup on the cache. -/
def cacheGet (cache : DedupCache) (key : Int × Int) : Option ℚ :=
  (cache.find? fun e => e.1 == key).map (·.2)

/-- Dict assignment on the cache. -/
def cacheSet (cache : DedupCache) (key : Int × Int) (t : ℚ) : DedupCache :=
  (key, t) :: cache.eraseP (fun e => e.1 == key)

/-- One hour, the dedup TTL, in seconds. -/
def dedupTTL : ℚ := 3600

/-- Sort key of the cheapest-first sort:
`client.extract_server_price(s)[0] or float('inf')` (a missing price sorts
last). -/
def priceLe (cloreToUsd : ℚ) (a b : Server) : Bool :=
  match (extract_server_price cloreToUsd a).1, (extract_server_price cloreToUsd b).1 with
  | none, none => true
  | none, some _ => false
  | some _, none => true
  | some x, some y => decide (x ≤ y)

/-- Everything `_process_found_servers` writes in one cycle. -/
structure HuntCycleResult where
  task : HuntTaskState
  cache : DedupCache
  alerts : List AlertRow
  /-- Server ids for which `_auto_rent_server` issued a `create_order`
  attempt this cycle, in order. -/
  attempts : List Int
deriving Repr

/-- The body of the `for server in servers` loop of `_process_found_servers`
(the source's in-place mutations of `task`, the cache and the alert table are
written out as explicitly updated values threaded into the recursive call).
A fresh (non-suppressed) match stamps the dedup cache, appends the found
alert, bumps `servers_found` and sets `last_found_at`; under `auto_rent`, a
successful placement bumps `servers_rented`, and reaching the quota clears
`is_active` and breaks out of the loop. -/
def processServerLoop (rentOutcome : Int → Bool) (now : ℚ) :
    List Server → HuntTaskState → DedupCache → List AlertRow → List Int →
    HuntCycleResult
  | [], task, cache, alerts, attempts => ⟨task, cache, alerts, attempts⟩
  | s :: rest, task, cache, alerts, attempts =>
    if (match cacheGet cache (task.id, s.id) with
        | some last => decide (now - last < dedupTTL)
        | none => false) then
      processServerLoop rentOutcome now rest task cache alerts attempts
    else
      if task.auto_rent then
        if rentOutcome s.id then
          if task.servers_rented + 1 ≥ task.max_servers then
            -- quota met: deactivate and break out of the loop
            ⟨{ task with
                servers_found := task.servers_found + 1
                servers_rented := task.servers_rented + 1
                is_active := false
                last_found_at := some now },
              cacheSet cache (task.id, s.id) now,
              alerts ++ [⟨task.user_id, "hunt_found", s.id⟩],
              attempts ++ [s.id]⟩
          else
            processServerLoop rentOutcome now rest
              { task with
                servers_found := task.servers_found + 1
                servers_rented := task.servers_rented + 1
                last_found_at := some now }
              (cacheSet cache (task.id, s.id) now)
              (alerts ++ [⟨task.user_id, "hunt_found", s.id⟩])
              (attempts ++ [s.id])
        else
          processServerLoop rentOutcome now rest
            { task with
              servers_found := task.servers_found + 1
              last_found_at := some now }
            (cacheSet cache (task.id, s.id) now)
            (alerts ++ [⟨task.user_id, "hunt_found", s.id⟩])
            (attempts ++ [s.id])
      else
        processServerLoop rentOutcome now rest
          { task with
            servers_found := task.servers_found + 1
            last_found_at := some now }
          (cacheSet cache (task.id, s.id) now)
          (alerts ++ [⟨task.user_id, "hunt_found", s.id⟩])
          attempts

/-- `_process_found_servers`: bail out when the rent quota is already met,
otherwise sort cheapest-first and run the processing loop. -/
def process_found_servers (cloreToUsd : ℚ) (rentOutcome : Int → Bool) (now : ℚ)
    (task : HuntTaskState) (cache : DedupCache) (alerts : List AlertRow)
    (servers : List Server) : HuntCycleResult :=
  if task.servers_rented ≥ task.max_servers then ⟨task, cache, alerts, []⟩
  else
    processServerLoop rentOutcome now (servers.mergeSort (priceLe cloreToUsd))
      task cache alerts []

/-! ## Derived specification forms

Closed forms and specification predicates used by the theorem statements
below.  They are *about* the embedded code, not translations of it. -/

/-- First upstream order with a given id (phase 1 consults ids, and with
duplicate-free upstream ids this is the unique one). -/
def apiFind : List UpstreamOrder → Int → Option UpstreamOrder
  | [], _ => none
  | o :: rest, i => if o.id == i then some o else apiFind rest i

/-- Row transformation phase 1 amounts to on a pre-existing row. -/
def phase1Row (api : List UpstreamOrder) (db_ids : List Int) (now : ℚ)
    (r : LedgerOrder) : LedgerOrder :=
  match apiFind api r.clore_order_id with
  | some o =>
    if r.clore_order_id ∈ db_ids then applyStatusUpdate .active (some o.spend) now r
    else r
  | none => r

/-- Rows phase 1 inserts, in upstream order. -/
def phase1New (user_id : Int) (api : List UpstreamOrder) (db_ids : List Int) :
    List LedgerOrder :=
  api.filterMap fun o =>
    if o.id ∈ db_ids then none else some (orderRowOfUpstream user_id o)

/-- All `order_expiring` alerts emitted by phase 1. -/
def expiryAlerts (user_id : Int) (now th : ℚ) (api : List UpstreamOrder) :
    List AlertRow :=
  api.flatMap (check_order_expiry user_id now th)

/-- Row transformation phase 2 amounts to. -/
def phase2Row (db_ids api_ids : List Int) (now : ℚ) (r : LedgerOrder) : LedgerOrder :=
  if r.clore_order_id ∈ db_ids ∧ r.clore_order_id ∉ api_ids then
    applyStatusUpdate .expired none now r
  else r

/-- All `order_expired` alerts emitted by phase 2. -/
def expiredAlerts (user_id : Int) (api_ids : List Int)
    (db_orders : List LedgerOrder) : List AlertRow :=
  (db_orders.filter fun o => !api_ids.contains o.clore_order_id).map
    fun o => ⟨user_id, "order_expired", o.clore_order_id⟩

/-- What one reconciliation cycle is claimed to do (amended): upstream ids
not locally active are inserted active; already-active ones are re-activated
with their spend updated; locally active orders absent upstream are expired
with an `order_expired` alert; terminal rows stay untouched; and the owner's
active set afterwards is exactly the upstream id set. -/
def ReconSpec (user_id : Int) (now th : ℚ) (api : List UpstreamOrder)
    (ledger : List LedgerOrder) (alerts : List AlertRow) : Prop :=
  (∀ o ∈ api, o.id ∉ (get_active_orders ledger user_id).map (·.clore_order_id) →
    orderRowOfUpstream user_id o
      ∈ (check_active_orders user_id now th api ledger alerts).1) ∧
  (∀ o ∈ api, o.id ∈ (get_active_orders ledger user_id).map (·.clore_order_id) →
    ∀ r ∈ ledger, r.clore_order_id = o.id →
      applyStatusUpdate .active (some o.spend) now r
        ∈ (check_active_orders user_id now th api ledger alerts).1) ∧
  (∀ r ∈ ledger, r.user_id = user_id → r.status = .active →
    r.clore_order_id ∉ api.map (·.id) →
      applyStatusUpdate .expired none now r
        ∈ (check_active_orders user_id now th api ledger alerts).1 ∧
      (⟨user_id, "order_expired", r.clore_order_id⟩ : AlertRow)
        ∈ (check_active_orders user_id now th api ledger alerts).2) ∧
  (∀ r ∈ ledger, r.status ≠ .active →
    r ∈ (check_active_orders user_id now th api ledger alerts).1) ∧
  (∀ i : Int,
    (∃ r ∈ (check_active_orders user_id now th api ledger alerts).1,
      r.user_id = user_id ∧ r.status = .active ∧ r.clore_order_id = i)
      ↔ i ∈ api.map (·.id))

/-- The hunt-task counter invariant of the claim. -/
def QuotaInvariant (t : HuntTaskState) : Prop :=
  t.servers_rented ≤ t.max_servers ∧
  (t.servers_rented = t.max_servers → t.is_active = false)

/-- What one `_process_found_servers` cycle is claimed to guarantee about the
rent quota. -/
def QuotaSpec (cloreToUsd : ℚ) (rentOutcome : Int → Bool) (now : ℚ)
    (task : HuntTaskState) (cache : DedupCache) (alerts : List AlertRow)
    (servers : List Server) : Prop :=
  let r := process_found_servers cloreToUsd rentOutcome now task cache alerts servers
  (task.servers_rented ≥ task.max_servers →
    r = ⟨task, cache, alerts, []⟩) ∧
  r.task.servers_rented = task.servers_rented + (r.attempts.filter rentOutcome).length ∧
  r.task.max_servers = task.max_servers ∧
  QuotaInvariant r.task ∧
  (r.task.servers_rented = task.max_servers →
    ∀ i, r.attempts.getLast? = some i → rentOutcome i = true)

/-- What two observations of the same `(task, server)` pair are claimed to
produce under the dedup TTL, given a first observation with a cold cache. -/
def DedupSpec (cloreToUsd : ℚ) (ro1 ro2 : Int → Bool) (t1 t2 : ℚ)
    (task : HuntTaskState) (cache : DedupCache) (alerts : List AlertRow)
    (s : Server) : Prop :=
  let r1 := process_found_servers cloreToUsd ro1 t1 task cache alerts [s]
  let r2 := process_found_servers cloreToUsd ro2 t2 r1.task r1.cache r1.alerts [s]
  r1.alerts = alerts ++ [⟨task.user_id, "hunt_found", s.id⟩] ∧
  r1.task.servers_found = task.servers_found + 1 ∧
  cacheGet r1.cache (task.id, s.id) = some t1 ∧
  (t2 - t1 < dedupTTL →
    r2.alerts = r1.alerts ∧
    r2.task.servers_found = r1.task.servers_found ∧
    r2.attempts = [] ∧
    r2.cache = r1.cache) ∧
  (dedupTTL ≤ t2 - t1 → r1.task.servers_rented < r1.task.max_servers →
    r2.alerts = alerts ++
      [⟨task.user_id, "hunt_found", s.id⟩, ⟨task.user_id, "hunt_found", s.id⟩] ∧
    r2.task.servers_found = task.servers_found + 2 ∧
    cacheGet r2.cache (task.id, s.id) = some t2)

/-- Criteria dict with every key absent. -/
def emptyCriteria : Criteria := ⟨none, none, none, none, none, none, none⟩

/-- What the hunt filter is claimed to guarantee whenever it returns. -/
def HuntFilterSpec (cloreToUsd : ℚ) (servers : List Server) (c : Criteria)
    (result : List Server) : Prop :=
  result.Sublist servers ∧
  (∀ s ∈ result, s.rented = false) ∧
  (∀ s ∈ result, ∀ ceiling, c.max_price_per_gpu = some ceiling →
    ∃ p, (extract_server_price cloreToUsd s).1 = some p ∧
      ∀ n model, extract_gpu_info s.specs.gpu = .ok (n, model) → 0 < n →
        p / (n : ℚ) ≤ ceiling) ∧
  (c = emptyCriteria → result = servers.filter fun s => !s.rented)

/-- What `save_balance_snapshot` actually stores in the delta columns: the
difference against the most recent record *within* the trailing window, and
0 when the window holds no record of the owner. -/
def BalanceDeltaSpec (history : List BalanceRecord) (user_id : Int)
    (now clore_balance btc_balance usd_equivalent : ℚ) : Prop :=
  let record := (save_balance_snapshot history user_id now
      clore_balance btc_balance usd_equivalent).2
  ((∀ r ∈ history, r.user_id = user_id → r.timestamp < now - 600) →
    record.clore_change_10min = 0) ∧
  (∀ r ∈ history, r.user_id = user_id → now - 600 ≤ r.timestamp →
    ∃ m ∈ history, m.user_id = user_id ∧ now - 600 ≤ m.timestamp ∧
      (∀ r2 ∈ history, r2.user_id = user_id → now - 600 ≤ r2.timestamp →
        r2.timestamp ≤ m.timestamp) ∧
      record.clore_change_10min = clore_balance - m.clore_balance) ∧
  ((∀ r ∈ history, r.user_id = user_id → r.timestamp < now - 3600) →
    record.clore_change_1hour = 0) ∧
  (∀ r ∈ history, r.user_id = user_id → now - 3600 ≤ r.timestamp →
    ∃ m ∈ history, m.user_id = user_id ∧ now - 3600 ≤ m.timestamp ∧
      (∀ r2 ∈ history, r2.user_id = user_id → now - 3600 ≤ r2.timestamp →
        r2.timestamp ≤ m.timestamp) ∧
      record.clore_change_1hour = clore_balance - m.clore_balance) ∧
  (history = [] →
    record.clore_change_10min = 0 ∧ record.clore_change_1hour = 0)

/-- A marketplace listing whose GPU descriptor contains `"x "` with a
non-numeric prefix, and which has a price. -/
def matroxServer : Server :=
  ⟨500, ⟨"Matrox G200", 8, "cpu", 64, ⟨"US"⟩, []⟩, ⟨some 40, none⟩, false, true, ⟨5, 3⟩, 1⟩

/-- Criteria consisting of a price-per-GPU ceiling only. -/
def ceilingOnlyCriteria : Criteria := ⟨none, some 9, none, none, none, none, none⟩

/-- A hunt task with auto-rent enabled and a quota of one server. -/
def huntTask0 : HuntTaskState := ⟨10, 1, 0, 0, 1, true, true, none⟩

/-- A currently rented listing. -/
def rentedServer : Server :=
  ⟨600, ⟨"4x RTX 4090", 24, "cpu", 64, ⟨"US"⟩, []⟩, ⟨some 40, none⟩, true, true, ⟨5, 3⟩, 1⟩

/-- An unrented listing. -/
def cleanServer : Server :=
  ⟨601, ⟨"2x RTX 3090", 24, "cpu", 64, ⟨"DE"⟩, []⟩, ⟨some 10, none⟩, false, true, ⟨4, 7⟩, 1⟩

/-! ## Theorems -/

/-- C8: for every two successive requests issued through the same client, the
first request of a fresh client is dispatched immediately, the later request
waits `max 0 (1.1s - elapsed since the previous dispatch)`, and consecutive
dispatches are never less than 1.1 seconds apart. -/
theorem rate_limit_min_spacing (st : ClientState) (t1 t2 : ℚ) :
    (dispatchRequest ⟨none⟩ t1).1 = t1 ∧
    (dispatchRequest st t1).2.lastRequestTime = some (dispatchRequest st t1).1 ∧
    (dispatchRequest (dispatchRequest st t1).2 t2).1 - t2
      = max 0 (requestDelay - (t2 - (dispatchRequest st t1).1)) ∧
    requestDelay ≤
      (dispatchRequest (dispatchRequest st t1).2 t2).1 - (dispatchRequest st t1).1 := by
  refine ⟨by simp [dispatchRequest], rfl, ?_, ?_⟩
  · show (dispatchRequest ⟨some (dispatchRequest st t1).1⟩ t2).1 - t2 = _
    set d1 := (dispatchRequest st t1).1 with hd1
    simp only [dispatchRequest]
    split
    · rename_i h
      rw [max_eq_right (by linarith)]
      ring
    · rename_i h
      rw [max_eq_left (by linarith)]
      ring
  · show requestDelay ≤ (dispatchRequest ⟨some (dispatchRequest st t1).1⟩ t2).1 - _
    set d1 := (dispatchRequest st t1).1 with hd1
    simp only [dispatchRequest]
    split
    · rename_i h
      have : t2 + (requestDelay - (t2 - d1)) - d1 = requestDelay := by ring
      rw [this]
    · rename_i h
      push_neg at h
      linarith

/-- C8 witness: the two-request spacing guarantee evaluated at a fresh client
and call instants 0 and 1/2. -/
theorem rate_limit_min_spacing_witness :
    (dispatchRequest ⟨none⟩ 0).1 = 0 ∧
    (dispatchRequest ⟨none⟩ 0).2.lastRequestTime = some (dispatchRequest ⟨none⟩ 0).1 ∧
    (dispatchRequest (dispatchRequest ⟨none⟩ 0).2 (1 / 2)).1 - 1 / 2
      = max 0 (requestDelay - (1 / 2 - (dispatchRequest ⟨none⟩ 0).1)) ∧
    requestDelay ≤
      (dispatchRequest (dispatchRequest ⟨none⟩ 0).2 (1 / 2)).1 - (dispatchRequest ⟨none⟩ 0).1 :=
  rate_limit_min_spacing ⟨none⟩ 0 (1 / 2)

/-- C9 (code bug): a decoded payload with embedded code 3 does *not* raise a
`CloreAPIError` carrying code 3 and the raw payload, because the typed raise
inside the `try` block is swallowed by the generic `except Exception` handler
and re-raised as code -1 with no attached response; the same happens to a
code-6 payload whose message came from the `error` field. -/
theorem makeRequest_nonzero_code_wrapped :
    makeRequestResult (.decoded ⟨some 3, none, 0⟩)
      = .error ⟨-1, "Clore API Error [3]: INVALID API TOKEN", none⟩ ∧
    makeRequestResult (.decoded ⟨some 6, some "boom", 1⟩)
      = .error ⟨-1, "Clore API Error [6]: boom", none⟩ ∧
    makeRequestResult (.decoded ⟨some 0, none, 2⟩) = .ok ⟨some 0, none, 2⟩ ∧
    ((-1 : Int) = 3) = False := by
  refine ⟨by decide, by decide, by decide, by simp⟩

/-- C2: `save_order` called twice with the identical upstream payload adds no
second row: the first successful call claims the unique `clore_order_id`, so
the second call's insert is rejected by the unique constraint (raising
`IntegrityError`, which the monitor merely logs) and the ledger is left
exactly as after the first call. -/
theorem save_order_second_identical_call_no_new_row (ledger : List LedgerOrder)
    (user_id : Int) (o : UpstreamOrder)
    (h : (save_order ledger user_id o).2 = none) :
    save_order (save_order ledger user_id o).1 user_id o
      = ((save_order ledger user_id o).1, some uniqueViolationMsg) := by
  unfold save_order at *
  split at h
  · simp at h
  · rename_i hclash
    simp only [if_neg hclash]
    rw [if_pos]
    simp [orderRowOfUpstream]

/-- C2 witness: the double-insert rejection evaluated on an empty ledger and
upstream order 5. -/
theorem save_order_second_identical_call_no_new_row_witness :
    (save_order [] 1 ⟨5, 2, 3, 0, 0⟩).2 = none ∧
    save_order (save_order [] 1 ⟨5, 2, 3, 0, 0⟩).1 1 ⟨5, 2, 3, 0, 0⟩
      = ((save_order [] 1 ⟨5, 2, 3, 0, 0⟩).1, some uniqueViolationMsg) :=
  ⟨by decide, save_order_second_identical_call_no_new_row [] 1 ⟨5, 2, 3, 0, 0⟩ (by decide)⟩

/-- C3 counterexample: `update_order_status` invoked with status `'expired'`
on an order already in the terminal state `'cancelled'` does *not* leave the
row's status unchanged — it overwrites it. -/
theorem update_order_status_overwrites_terminal :
    (update_order_status [⟨5, 1, .cancelled, 3, 0, 0, none, some 10⟩] 5 .expired none 20).1
      = [⟨5, 1, .expired, 3, 0, 0, none, some 10⟩] ∧
    OrderStatus.expired ≠ OrderStatus.cancelled := by
  refine ⟨by decide, by decide⟩

/-- C10: `extract_gpu_info` is not total.  A string without the `"x "`
separator yields `(1, original)` without error; a string containing `"x "`
whose prefix before the first occurrence is not a decimal integer raises
`ValueError` — in particular `"Matrox G200"` — and the error propagates
through criterion evaluation under a price ceiling and through
server-snapshot extraction. -/
theorem extract_gpu_info_partial :
    (∀ s : String, strContains s "x " = false → extract_gpu_info s = .ok (1, s)) ∧
    (∀ s pre post, splitOnce s "x " = some (pre, post) → pyIntOfString pre = none →
      extract_gpu_info s = .error ("invalid literal for int with base 10: " ++ pre)) ∧
    extract_gpu_info "Matrox G200" = .error "invalid literal for int with base 10: Matro" ∧
    server_matches_criteria 1 matroxServer ceilingOnlyCriteria
      = .error "invalid literal for int with base 10: Matro" ∧
    save_server_snapshot 1 [] 1 matroxServer "marketplace"
      = .error "invalid literal for int with base 10: Matro" := by
  refine ⟨?_, ?_, by decide, by decide, by decide⟩
  · intro s h
    have hn : findSubstrIdx "x ".data s.data = none := by
      rcases hfs : findSubstrIdx "x ".data s.data with _ | i
      · rfl
      · rw [strContains, hfs] at h
        simp at h
    have hsplit : splitOnce s "x " = none := by
      simp [splitOnce, hn]
    simp [extract_gpu_info, hsplit]
  · intro s pre post h1 h2
    simp [extract_gpu_info, h1, h2]

/-- C10 witness: the totality clause evaluated at `"No GPU"` and the
`ValueError` clause at `"Matrox G200"`. -/
theorem extract_gpu_info_partial_witness :
    (strContains "No GPU" "x " = false ∧ extract_gpu_info "No GPU" = .ok (1, "No GPU")) ∧
    (splitOnce "Matrox G200" "x " = some ("Matro", "G200") ∧
      pyIntOfString "Matro" = none ∧
      extract_gpu_info "Matrox G200"
        = .error ("invalid literal for int with base 10: " ++ "Matro")) :=
  ⟨⟨by decide, extract_gpu_info_partial.1 "No GPU" (by decide)⟩,
   ⟨by decide, by decide,
    extract_gpu_info_partial.2.1 "Matrox G200" "Matro" "G200" (by decide) (by decide)⟩⟩

/-! ### Balance-delta lemmas (C4) -/

theorem latestRecord_eq_none {l : List BalanceRecord} :
    latestRecord l = none ↔ l = [] := by
  cases l with
  | nil => simp [latestRecord]
  | cons r rest =>
    simp only [latestRecord]
    constructor
    · intro h
      split at h
      · simp at h
      · split at h <;> simp at h
    · intro h
      simp at h

theorem latestRecord_mem {l : List BalanceRecord} {m : BalanceRecord}
    (h : latestRecord l = some m) : m ∈ l := by
  induction l generalizing m with
  | nil => simp [latestRecord] at h
  | cons r rest ih =>
    rcases hrest : latestRecord rest with _ | m'
    · simp only [latestRecord, hrest] at h
      cases h
      exact List.mem_cons_self r rest
    · simp only [latestRecord, hrest] at h
      split at h
      · cases h
        exact List.mem_cons_of_mem r (ih hrest)
      · cases h
        exact List.mem_cons_self r rest

theorem latestRecord_maximal {l : List BalanceRecord} {m : BalanceRecord}
    (h : latestRecord l = some m) :
    ∀ r ∈ l, r.timestamp ≤ m.timestamp := by
  induction l generalizing m with
  | nil => simp [latestRecord] at h
  | cons a rest ih =>
    rcases hrest : latestRecord rest with _ | m'
    · simp only [latestRecord, hrest] at h
      cases h
      have hnil : rest = [] := latestRecord_eq_none.mp hrest
      subst hnil
      intro r hr
      simp at hr
      subst hr
      exact le_refl _
    · simp only [latestRecord, hrest] at h
      intro r hr
      rcases List.mem_cons.mp hr with rfl | hr'
      · split at h
        · rename_i hgt
          cases h
          exact le_of_lt hgt
        · cases h
          exact le_refl _
      · split at h
        · cases h
          exact ih hrest r hr'
        · rename_i hgt
          push_neg at hgt
          cases h
          exact le_trans (ih hrest r hr') hgt

theorem latestWithin_none {history : List BalanceRecord} {uid : Int} {cutoff : ℚ}
    (h : ∀ r ∈ history, r.user_id = uid → r.timestamp < cutoff) :
    latestWithin history uid cutoff = none := by
  unfold latestWithin
  rw [latestRecord_eq_none]
  rw [List.filter_eq_nil_iff]
  intro r hr
  simp only [Bool.and_eq_true, beq_iff_eq, decide_eq_true_eq, not_and]
  intro hu hts
  exact absurd hts (not_le.mpr (h r hr hu))

theorem latestWithin_spec {history : List BalanceRecord} {uid : Int} {cutoff : ℚ}
    {r : BalanceRecord} (hr : r ∈ history) (hru : r.user_id = uid)
    (hrt : cutoff ≤ r.timestamp) :
    ∃ m ∈ history, m.user_id = uid ∧ cutoff ≤ m.timestamp ∧
      (∀ r2 ∈ history, r2.user_id = uid → cutoff ≤ r2.timestamp →
        r2.timestamp ≤ m.timestamp) ∧
      latestWithin history uid cutoff = some m := by
  have hrf : r ∈ history.filter fun x => x.user_id == uid && decide (cutoff ≤ x.timestamp) := by
    rw [List.mem_filter]
    exact ⟨hr, by simp [hru, hrt]⟩
  rcases hlw : latestWithin history uid cutoff with _ | m
  · exfalso
    unfold latestWithin at hlw
    rw [latestRecord_eq_none] at hlw
    rw [hlw] at hrf
    simp at hrf
  · have hm := latestRecord_mem hlw
    rw [List.mem_filter] at hm
    obtain ⟨hmh, hmp⟩ := hm
    simp only [Bool.and_eq_true, beq_iff_eq, decide_eq_true_eq] at hmp
    refine ⟨m, hmh, hmp.1, hmp.2, ?_, rfl⟩
    intro r2 hr2 hr2u hr2t
    have hr2f : r2 ∈ history.filter
        fun x => x.user_id == uid && decide (cutoff ≤ x.timestamp) := by
      rw [List.mem_filter]
      exact ⟨hr2, by simp [hr2u, hr2t]⟩
    exact latestRecord_maximal hlw r2 hr2f

/-- C4 counterexample: an owner with a single balance record 30 minutes old
(timestamp 0, balance 5) saves a snapshot at `now = 1800` with balance 8.
The record is at least 10 minutes old, so the claimed rule ("most recent
record that is at least that old") demands a 10-minute delta of `8 - 5`;
the code stores 0 because its query looks for records *within* the last 10
minutes. -/
theorem balance_delta_claim_false_on_old_record :
    (save_balance_snapshot [⟨1, 0, 5, 0, 0, 0, 0, 0⟩] 1 1800 8 0 0).2.clore_change_10min = 0 ∧
    (0 : ℚ) ≤ 1800 - 600 ∧
    (8 : ℚ) - 5 ≠ 0 := by
  refine ⟨?_, by norm_num, by norm_num⟩
  have hnone : latestWithin [⟨1, 0, 5, 0, 0, 0, 0, 0⟩] 1 (1800 - 600) = none := by
    apply latestWithin_none
    intro r hr hu
    simp at hr
    rw [hr]
    norm_num
  simp only [save_balance_snapshot, hnone]

/-- C4 (amended): the stored 10-minute and 1-hour deltas are computed against
the most recent record *within* the trailing window (`timestamp ≥ now -
window`), not against records at least that old; when no record of the owner
lies within the window — in particular on empty history — the delta is 0,
never null and never an error. -/
theorem balance_deltas_trailing_window (history : List BalanceRecord) (user_id : Int)
    (now clore_balance btc_balance usd_equivalent : ℚ) :
    BalanceDeltaSpec history user_id now clore_balance btc_balance usd_equivalent := by
  unfold BalanceDeltaSpec
  refine ⟨?_, ?_, ?_, ?_, ?_⟩
  · intro h
    have hn := @latestWithin_none history user_id (now - 600) h
    simp only [save_balance_snapshot, hn]
  · intro r hr hru hrt
    obtain ⟨m, hmh, hmu, hmt, hmax, hlw⟩ := latestWithin_spec hr hru hrt
    refine ⟨m, hmh, hmu, hmt, hmax, ?_⟩
    simp only [save_balance_snapshot, hlw]
  · intro h
    have hn := @latestWithin_none history user_id (now - 3600) h
    simp only [save_balance_snapshot, hn]
  · intro r hr hru hrt
    obtain ⟨m, hmh, hmu, hmt, hmax, hlw⟩ := latestWithin_spec hr hru hrt
    refine ⟨m, hmh, hmu, hmt, hmax, ?_⟩
    simp only [save_balance_snapshot, hlw]
  · rintro rfl
    have h10 : latestWithin [] user_id (now - 600) = none := rfl
    have h1h : latestWithin [] user_id (now - 3600) = none := rfl
    constructor
    · simp only [save_balance_snapshot, h10]
    · simp only [save_balance_snapshot, h1h]

/-- C4 witness: the cold-start clause evaluated on an empty history. -/
theorem balance_deltas_trailing_window_witness :
    BalanceDeltaSpec [] 1 0 8 0 0 ∧
    (save_balance_snapshot [] 1 0 8 0 0).2.clore_change_10min = 0 ∧
    (save_balance_snapshot [] 1 0 8 0 0).2.clore_change_1hour = 0 := by
  have h := balance_deltas_trailing_window [] 1 0 8 0 0
  refine ⟨h, ?_⟩
  have h' := h
  unfold BalanceDeltaSpec at h'
  exact h'.2.2.2.2 rfl

/-! ### Hunt-filter lemmas (C5) -/

theorem matches_true_maxPrice {k : ℚ} {s : Server} {c : Criteria}
    (h : server_matches_criteria k s c = .ok true) :
    maxPriceCheck k s c = .ok true := by
  unfold server_matches_criteria at h
  split at h
  · simp at h
  · split at h
    · simp at h
    · simp at h
    · rename_i heq
      exact heq

theorem maxPrice_ok_true {k : ℚ} {s : Server} {c : Criteria} {ceiling : ℚ}
    (hc : c.max_price_per_gpu = some ceiling)
    (h : maxPriceCheck k s c = .ok true) :
    ∃ p, (extract_server_price k s).1 = some p ∧
      ∀ n model, extract_gpu_info s.specs.gpu = .ok (n, model) → 0 < n →
        p / (n : ℚ) ≤ ceiling := by
  rcases hprice : (extract_server_price k s).1 with _ | price
  · exfalso
    unfold maxPriceCheck at h
    rw [hc, hprice] at h
    simp at h
  · refine ⟨price, rfl, ?_⟩
    intro n model hext hpos
    unfold maxPriceCheck at h
    rw [hc, hprice, hext] at h
    simp only [gt_iff_lt, hpos, if_true, Except.ok.injEq, decide_eq_true_eq, not_lt] at h
    exact h

theorem filter_sound_mem {k : ℚ} {c : Criteria} :
    ∀ {servers result : List Server},
      filter_servers_by_criteria k servers c = .ok result →
      ∀ s ∈ result, s.rented = false ∧ server_matches_criteria k s c = .ok true := by
  intro servers
  induction servers with
  | nil =>
    intro result h s hs
    simp only [filter_servers_by_criteria] at h
    cases h
    simp at hs
  | cons a rest ih =>
    intro result h s hs
    simp only [filter_servers_by_criteria] at h
    split at h
    · exact ih h s hs
    · rename_i hnr
      split at h
      · simp at h
      · rename_i matched hmatch
        split at h
        · simp at h
        · rename_i tail htail
          cases h
          rcases matched with _ | _
          · exact ih htail s hs
          · rcases List.mem_cons.mp hs with rfl | hs'
            · exact ⟨Bool.not_eq_true _ ▸ hnr, hmatch⟩
            · exact ih htail s hs'

theorem filter_sound_sublist {k : ℚ} {c : Criteria} :
    ∀ {servers result : List Server},
      filter_servers_by_criteria k servers c = .ok result →
      result.Sublist servers := by
  intro servers
  induction servers with
  | nil =>
    intro result h
    simp only [filter_servers_by_criteria] at h
    cases h
    exact List.Sublist.refl []
  | cons a rest ih =>
    intro result h
    simp only [filter_servers_by_criteria] at h
    split at h
    · exact (ih h).cons a
    · split at h
      · simp at h
      · rename_i matched hmatch
        split at h
        · simp at h
        · rename_i tail htail
          cases h
          rcases matched with _ | _
          · exact (ih htail).cons a
          · exact (ih htail).cons₂ a

theorem matches_emptyCriteria {k : ℚ} {s : Server} :
    server_matches_criteria k s emptyCriteria = .ok true := rfl

theorem filter_emptyCriteria {k : ℚ} :
    ∀ servers : List Server,
      filter_servers_by_criteria k servers emptyCriteria
        = .ok (servers.filter fun s => !s.rented) := by
  intro servers
  induction servers with
  | nil => rfl
  | cons a rest ih =>
    rcases ha : a.rented with _ | _
    · simp [filter_servers_by_criteria, ha, matches_emptyCriteria, ih, List.filter_cons]
    · simp [filter_servers_by_criteria, ha, ih, List.filter_cons]

/-- C5: whenever the hunt filter returns, the result is an order-preserving
subsequence of the candidates containing no rented listing; under a
`max_price_per_gpu` ceiling every returned listing has an extractable price
whose per-GPU value (for a positive parsed GPU count) does not exceed the
ceiling — priceless listings are excluded, not passed vacuously; and with no
criteria keys set the filter imposes no constraint beyond dropping rented
listings. -/
theorem hunt_filter_sound (k : ℚ) (servers : List Server) (c : Criteria)
    (result : List Server)
    (h : filter_servers_by_criteria k servers c = .ok result) :
    HuntFilterSpec k servers c result := by
  refine ⟨filter_sound_sublist h, ?_, ?_, ?_⟩
  · intro s hs
    exact (filter_sound_mem h s hs).1
  · intro s hs ceiling hc
    exact maxPrice_ok_true hc (matches_true_maxPrice (filter_sound_mem h s hs).2)
  · rintro rfl
    have heq := @filter_emptyCriteria k servers
    rw [h] at heq
    exact Except.ok.inj heq

/-- C5 witness: the filter guarantee evaluated on a rented and an unrented
listing under empty criteria. -/
theorem hunt_filter_sound_witness :
    filter_servers_by_criteria 1 [rentedServer, cleanServer] emptyCriteria
      = .ok [cleanServer] ∧
    HuntFilterSpec 1 [rentedServer, cleanServer] emptyCriteria [cleanServer] :=
  ⟨by decide, hunt_filter_sound 1 [rentedServer, cleanServer] emptyCriteria [cleanServer]
    (by decide)⟩

/-! ### Hunt-loop lemmas (C6, C7) -/

theorem cacheGet_set (cache : DedupCache) (key : Int × Int) (t : ℚ) :
    cacheGet (cacheSet cache key t) key = some t := by
  simp [cacheGet, cacheSet]

theorem processServerLoop_spec (ro : Int → Bool) (now : ℚ) :
    ∀ (servers : List Server) (task : HuntTaskState) (cache : DedupCache)
      (alerts : List AlertRow) (attempts : List Int) (r : HuntCycleResult),
      processServerLoop ro now servers task cache alerts attempts = r →
      task.servers_rented < task.max_servers →
      r.task.id = task.id ∧
      r.task.user_id = task.user_id ∧
      r.task.max_servers = task.max_servers ∧
      r.task.auto_rent = task.auto_rent ∧
      ∃ newAtt, r.attempts = attempts ++ newAtt ∧
        r.task.servers_rented = task.servers_rented + (newAtt.filter ro).length ∧
        r.task.servers_rented ≤ task.max_servers ∧
        (r.task.servers_rented = task.max_servers → r.task.is_active = false) ∧
        (r.task.servers_rented < task.max_servers → r.task.is_active = task.is_active) ∧
        (r.task.servers_rented = task.max_servers →
          ∀ i, newAtt.getLast? = some i → ro i = true) := by
  intro servers
  induction servers with
  | nil =>
    intro task cache alerts attempts r hr hlt
    cases hr
    refine ⟨rfl, rfl, rfl, rfl, [], by simp [processServerLoop], ?_, ?_, ?_, ?_, ?_⟩
    · simp [processServerLoop]
    · exact le_of_lt hlt
    · intro heq
      exact absurd heq (Nat.ne_of_lt hlt)
    · intro _
      rfl
    · intro _ i hi
      simp at hi
  | cons s rest ih =>
    intro task cache alerts attempts r hr hlt
    rw [processServerLoop] at hr
    split at hr
    · exact ih task cache alerts attempts r hr hlt
    · split at hr
      · -- auto_rent is on: an attempt is recorded
        split at hr
        · -- placement succeeded
          split at hr
          · -- quota reached: deactivate and break
            rename_i hro hge
            cases hr
            refine ⟨rfl, rfl, rfl, rfl, [s.id], rfl, ?_, ?_, ?_, ?_, ?_⟩ <;> dsimp only
            · simp [hro]
            · omega
            · intro _
              rfl
            · intro hcon
              exact absurd hcon (by omega)
            · intro _ i hi
              simp at hi
              rw [← hi]
              exact hro
          · -- quota not yet reached: continue
            rename_i hro hnge
            obtain ⟨hid, huser, hmax, har, newAtt, hatt, hrent, hle, hact, hact2, hlast⟩ :=
              ih _ _ _ _ r hr (by dsimp only; omega)
            dsimp only at hid huser hmax har hrent hle hact hact2 hlast
            refine ⟨hid, huser, hmax, har, s.id :: newAtt, ?_, ?_, ?_, hact, hact2, ?_⟩
            · rw [hatt]
              simp
            · rw [hrent]
              simp [hro]
              omega
            · omega
            · intro hmaxed i hi
              rcases newAtt with _ | ⟨a, tl⟩
              · simp at hi
                rw [← hi]
                exact hro
              · rw [List.getLast?_cons_cons] at hi
                exact hlast hmaxed i hi
        · -- placement failed: counters untouched, continue
          rename_i hro
          obtain ⟨hid, huser, hmax, har, newAtt, hatt, hrent, hle, hact, hact2, hlast⟩ :=
            ih _ _ _ _ r hr (by dsimp only; omega)
          dsimp only at hid huser hmax har hrent hle hact hact2 hlast
          refine ⟨hid, huser, hmax, har, s.id :: newAtt, ?_, ?_, hle, hact, hact2, ?_⟩
          · rw [hatt]
            simp
          · rw [hrent]
            simp [hro]
          · intro hmaxed i hi
            rcases newAtt with _ | ⟨a, tl⟩
            · exfalso
              simp at hrent
              omega
            · rw [List.getLast?_cons_cons] at hi
              exact hlast hmaxed i hi
      · -- auto_rent is off: no attempt
        obtain ⟨hid, huser, hmax, har, newAtt, hatt, hrent, hle, hact, hact2, hlast⟩ :=
          ih _ _ _ _ r hr (by dsimp only; omega)
        exact ⟨hid, huser, hmax, har, newAtt, hatt, hrent, hle, hact, hact2, hlast⟩

/-- The suppressed branch of the loop: a cached, within-TTL observation is
skipped entirely. -/
theorem processServerLoop_single_suppressed (ro : Int → Bool) (now : ℚ) (s : Server)
    (task : HuntTaskState) (cache : DedupCache) (alerts : List AlertRow)
    (hsup : (match cacheGet cache (task.id, s.id) with
      | some last => decide (now - last < dedupTTL)
      | none => false) = true) :
    processServerLoop ro now [s] task cache alerts [] = ⟨task, cache, alerts, []⟩ := by
  rw [processServerLoop, if_pos hsup]
  rfl

/-- The fresh branch of the loop on a single matched server: cache stamped,
alert appended, found counter bumped, identity columns preserved. -/
theorem processServerLoop_single_fresh (ro : Int → Bool) (now : ℚ) (s : Server)
    (task : HuntTaskState) (cache : DedupCache) (alerts : List AlertRow)
    (hfresh : (match cacheGet cache (task.id, s.id) with
      | some last => decide (now - last < dedupTTL)
      | none => false) = false) :
    (processServerLoop ro now [s] task cache alerts []).cache
        = cacheSet cache (task.id, s.id) now ∧
    (processServerLoop ro now [s] task cache alerts []).alerts
        = alerts ++ [⟨task.user_id, "hunt_found", s.id⟩] ∧
    (processServerLoop ro now [s] task cache alerts []).task.servers_found
        = task.servers_found + 1 ∧
    (processServerLoop ro now [s] task cache alerts []).task.id = task.id ∧
    (processServerLoop ro now [s] task cache alerts []).task.user_id = task.user_id ∧
    (processServerLoop ro now [s] task cache alerts []).task.max_servers
        = task.max_servers := by
  rw [processServerLoop, if_neg (by rw [hfresh]; simp)]
  split
  · split
    · split
      · exact ⟨rfl, rfl, rfl, rfl, rfl, rfl⟩
      · exact ⟨rfl, rfl, rfl, rfl, rfl, rfl⟩
    · exact ⟨rfl, rfl, rfl, rfl, rfl, rfl⟩
  · exact ⟨rfl, rfl, rfl, rfl, rfl, rfl⟩

/-- C7: one hunt cycle never attempts a placement once the rented counter has
reached the quota (the cycle returns immediately untouched); the rented
counter grows by exactly the number of successful attempts (failures leave it
unchanged); the counter never exceeds `max_servers`, reaching the quota
forces `is_active := false`, and the quota-reaching placement is the cycle's
last attempt (the remaining matches are dropped); a freshly created task with
`max_servers ≥ 1` satisfies the invariant. -/
theorem hunt_quota_enforced (k : ℚ) (ro : Int → Bool) (now : ℚ)
    (task : HuntTaskState) (cache : DedupCache) (alerts : List AlertRow)
    (servers : List Server) (tid uid : Int) (m : Nat) (act ar : Bool)
    (hinv : QuotaInvariant task) (hm : 1 ≤ m) :
    QuotaSpec k ro now task cache alerts servers ∧
    QuotaInvariant (create_hunt_task tid uid m act ar) := by
  constructor
  · unfold QuotaSpec
    by_cases hge : task.servers_rented ≥ task.max_servers
    · rw [process_found_servers, if_pos hge]
      refine ⟨fun _ => rfl, by simp, rfl, hinv, ?_⟩
      intro _ i hi
      simp at hi
    · have hlt : task.servers_rented < task.max_servers := by omega
      obtain ⟨hid, huser, hmax, har, newAtt, hatt, hrent, hle, hact, hact2, hlast⟩ :=
        processServerLoop_spec ro now (servers.mergeSort (priceLe k)) task cache alerts []
          _ rfl hlt
      rw [process_found_servers, if_neg hge]
      refine ⟨fun hcon => absurd hcon hge, ?_, hmax, ⟨?_, ?_⟩, ?_⟩
      · rw [hrent, hatt]
        simp
      · rw [hmax]
        exact hle
      · rw [hmax]
        exact hact
      · intro hmaxed i hi
        rw [hatt] at hi
        simp at hi
        exact hlast hmaxed i hi
  · unfold QuotaInvariant create_hunt_task
    constructor
    · simp
    · intro h0
      exact absurd h0.symm (by simp; omega)

/-- C7 witness: the quota guarantee evaluated for an auto-rent task with
quota 1 on a two-listing marketplace, plus the invariant at creation. -/
theorem hunt_quota_enforced_witness :
    QuotaInvariant huntTask0 ∧ 1 ≤ 1 ∧
    QuotaSpec 1 (fun _ => true) 100 huntTask0 [] [] [rentedServer, cleanServer] ∧
    QuotaInvariant (create_hunt_task 10 1 1 true true) := by
  have h := hunt_quota_enforced 1 (fun _ => true) 100 huntTask0 [] [] [rentedServer, cleanServer]
    10 1 1 true true (by constructor <;> simp [huntTask0]) (by norm_num)
  exact ⟨by constructor <;> simp [huntTask0], by norm_num, h.1, h.2⟩

/-- C6: for the same `(task, server)` pair observed in two hunt cycles with a
cold cache at the first observation: the first observation alerts, stamps the
dedup cache and bumps the found counter; a second observation within the
one-hour TTL is suppressed — no new alert, no found-counter increment, no
auto-rent attempt, no timestamp refresh; a second observation at or after TTL
expiry (with the task still under quota) alerts again, yielding exactly two
alerts, and refreshes the dedup timestamp. -/
theorem hunt_dedup_ttl (k : ℚ) (ro1 ro2 : Int → Bool) (t1 t2 : ℚ)
    (task : HuntTaskState) (cache : DedupCache) (alerts : List AlertRow) (s : Server)
    (h0 : cacheGet cache (task.id, s.id) = none)
    (h1 : task.servers_rented < task.max_servers) :
    DedupSpec k ro1 ro2 t1 t2 task cache alerts s := by
  have hr1 : process_found_servers k ro1 t1 task cache alerts [s]
      = processServerLoop ro1 t1 [s] task cache alerts [] := by
    rw [process_found_servers, if_neg (by omega)]
    simp
  have hfresh1 : (match cacheGet cache (task.id, s.id) with
      | some last => decide (t1 - last < dedupTTL)
      | none => false) = false := by
    rw [h0]
  obtain ⟨hc1, ha1, hf1, hid1, hu1, hm1⟩ :=
    processServerLoop_single_fresh ro1 t1 s task cache alerts hfresh1
  unfold DedupSpec
  rw [hr1]
  have hget1 : cacheGet (processServerLoop ro1 t1 [s] task cache alerts []).cache
      ((processServerLoop ro1 t1 [s] task cache alerts []).task.id, s.id) = some t1 := by
    rw [hc1, hid1]
    exact cacheGet_set cache (task.id, s.id) t1
  refine ⟨ha1, hf1, ?_, ?_, ?_⟩
  · rw [hc1]
    exact cacheGet_set cache (task.id, s.id) t1
  · -- within TTL: the second observation is fully suppressed
    intro hTTL
    have hr2 : process_found_servers k ro2 t2
        (processServerLoop ro1 t1 [s] task cache alerts []).task
        (processServerLoop ro1 t1 [s] task cache alerts []).cache
        (processServerLoop ro1 t1 [s] task cache alerts []).alerts [s]
        = ⟨(processServerLoop ro1 t1 [s] task cache alerts []).task,
           (processServerLoop ro1 t1 [s] task cache alerts []).cache,
           (processServerLoop ro1 t1 [s] task cache alerts []).alerts, []⟩ := by
      by_cases hq : (processServerLoop ro1 t1 [s] task cache alerts []).task.servers_rented
          ≥ (processServerLoop ro1 t1 [s] task cache alerts []).task.max_servers
      · rw [process_found_servers, if_pos hq]
      · rw [process_found_servers, if_neg hq]
        simp only [List.mergeSort]
        apply processServerLoop_single_suppressed
        rw [hget1]
        simp only [decide_eq_true_eq]
        exact hTTL
    rw [hr2]
    exact ⟨rfl, rfl, rfl, rfl⟩
  · -- TTL expired: a fresh alert and a refreshed timestamp
    intro hTTL hq
    have hr2 : process_found_servers k ro2 t2
        (processServerLoop ro1 t1 [s] task cache alerts []).task
        (processServerLoop ro1 t1 [s] task cache alerts []).cache
        (processServerLoop ro1 t1 [s] task cache alerts []).alerts [s]
        = processServerLoop ro2 t2 [s]
            (processServerLoop ro1 t1 [s] task cache alerts []).task
            (processServerLoop ro1 t1 [s] task cache alerts []).cache
            (processServerLoop ro1 t1 [s] task cache alerts []).alerts [] := by
      rw [process_found_servers, if_neg (by omega)]
      simp
    have hfresh2 : (match cacheGet
        (processServerLoop ro1 t1 [s] task cache alerts []).cache
        ((processServerLoop ro1 t1 [s] task cache alerts []).task.id, s.id) with
      | some last => decide (t2 - last < dedupTTL)
      | none => false) = false := by
      rw [hget1]
      simp only [decide_eq_false_iff_not, not_lt]
      exact hTTL
    obtain ⟨hc2, ha2, hf2, hid2, hu2, hm2⟩ :=
      processServerLoop_single_fresh ro2 t2 s
        (processServerLoop ro1 t1 [s] task cache alerts []).task
        (processServerLoop ro1 t1 [s] task cache alerts []).cache
        (processServerLoop ro1 t1 [s] task cache alerts []).alerts hfresh2
    rw [hr2]
    refine ⟨?_, ?_, ?_⟩
    · rw [ha2, ha1, hu1]
      simp
    · rw [hf2, hf1]
    · rw [hc2, hid1]
      exact cacheGet_set _ (task.id, s.id) t2

/-- C6 witness: the dedup guarantee evaluated for a cold cache, observation
instants 0 and 100, and auto-rent disabled. -/
theorem hunt_dedup_ttl_witness :
    cacheGet [] (10, 601) = none ∧ 0 < 2 ∧
    DedupSpec 1 (fun _ => false) (fun _ => false) 0 100
      ⟨10, 1, 0, 0, 2, true, false, none⟩ [] [] cleanServer := by
  have h := hunt_dedup_ttl 1 (fun _ => false) (fun _ => false) 0 100
    ⟨10, 1, 0, 0, 2, true, false, none⟩ [] [] cleanServer (by decide) (by norm_num)
  exact ⟨by decide, by norm_num, h⟩

/-! ### Reconciliation lemmas (C1, C3) -/

theorem apiFind_eq_none {api : List UpstreamOrder} {i : Int} :
    apiFind api i = none ↔ i ∉ api.map (·.id) := by
  induction api with
  | nil => simp [apiFind]
  | cons a rest ih =>
    by_cases ha : a.id = i
    · simp [apiFind, ha]
    · simp [apiFind, ha, ih, Ne.symm ha]

theorem apiFind_some {api : List UpstreamOrder} {i : Int} {o : UpstreamOrder}
    (h : apiFind api i = some o) : o ∈ api ∧ o.id = i := by
  induction api with
  | nil => simp [apiFind] at h
  | cons a rest ih =>
    by_cases ha : a.id = i
    · rw [apiFind, if_pos (by simp [ha])] at h
      have hao := Option.some.inj h
      subst hao
      exact ⟨List.mem_cons_self a rest, ha⟩
    · rw [apiFind, if_neg (by simp [ha])] at h
      obtain ⟨hmem, hid⟩ := ih h
      exact ⟨List.mem_cons_of_mem a hmem, hid⟩

theorem apiFind_of_nodup {api : List UpstreamOrder}
    (h : (api.map (·.id)).Nodup) {o : UpstreamOrder} (ho : o ∈ api) :
    apiFind api o.id = some o := by
  induction api with
  | nil => simp at ho
  | cons a rest ih =>
    rcases List.mem_cons.mp ho with rfl | ho'
    · rw [apiFind, if_pos (by simp)]
    · have hne : a.id ≠ o.id := by
        intro hEq
        rw [List.map_cons, List.nodup_cons] at h
        exact h.1 (hEq ▸ List.mem_map_of_mem (·.id) ho')
      rw [apiFind, if_neg (by simp [hne])]
      rw [List.map_cons, List.nodup_cons] at h
      exact ih h.2 ho'

theorem applyStatusUpdate_id (st : OrderStatus) (sp : Option ℚ) (now : ℚ)
    (r : LedgerOrder) :
    (applyStatusUpdate st sp now r).clore_order_id = r.clore_order_id := rfl

theorem reconcileUpstream_closed (user_id : Int) (now th : ℚ) (db_ids : List Int) :
    ∀ (api : List UpstreamOrder) (ledger : List LedgerOrder) (alerts : List AlertRow),
      (api.map (·.id)).Nodup →
      (∀ o ∈ api, o.id ∈ db_ids ∨ ∀ r ∈ ledger, r.clore_order_id ≠ o.id) →
      reconcileUpstream user_id now th db_ids api ledger alerts
        = .ok (ledger.map (phase1Row api db_ids now) ++ phase1New user_id api db_ids,
               alerts ++ expiryAlerts user_id now th api) := by
  intro api
  induction api with
  | nil =>
    intro ledger alerts _ _
    simp only [reconcileUpstream, phase1New, expiryAlerts, List.filterMap_nil,
      List.flatMap_nil, List.append_nil, Except.ok.injEq, Prod.mk.injEq]
    refine ⟨?_, trivial⟩
    rw [show phase1Row [] db_ids now = fun r => r from funext fun r => rfl]
    simp
  | cons o rest ih =>
    intro ledger alerts hnodup hfresh
    rw [List.map_cons, List.nodup_cons] at hnodup
    by_cases hin : o.id ∈ db_ids
    · rw [reconcileUpstream, if_pos (by simpa using hin)]
      rw [ih _ _ hnodup.2 ?transfer]
      case transfer =>
        intro o' ho'
        rcases hfresh o' (List.mem_cons_of_mem o ho') with h | h
        · exact Or.inl h
        · refine Or.inr ?_
          intro r1 hr1
          simp only [update_order_status] at hr1
          obtain ⟨r0, hr0, hr0eq⟩ := List.mem_map.mp hr1
          rw [← hr0eq]
          have : (if r0.clore_order_id == o.id
              then applyStatusUpdate .active (some o.spend) now r0
              else r0).clore_order_id = r0.clore_order_id := by
            split <;> rfl
          rw [this]
          exact h r0 hr0
      congr 2
      · -- the updated ledger maps through phase 1 of the tail as one pass of
        -- the combined row transformation
        have hnew : phase1New user_id (o :: rest) db_ids
            = phase1New user_id rest db_ids := by
          simp [phase1New, hin]
        rw [hnew]
        congr 1
        simp only [update_order_status, List.map_map]
        apply List.map_congr_left
        intro r _
        simp only [Function.comp]
        by_cases hrid : r.clore_order_id = o.id
        · rw [if_pos (by simp [hrid]), phase1Row, phase1Row]
          have h1 : apiFind rest (applyStatusUpdate .active (some o.spend) now
              r).clore_order_id = none := by
            rw [apiFind_eq_none, applyStatusUpdate_id, hrid]
            exact hnodup.1
          rw [h1]
          rw [apiFind, if_pos (by simp [hrid])]
          dsimp only
          rw [if_pos (hrid ▸ hin)]
        · rw [if_neg (by simp [hrid]), phase1Row, phase1Row, apiFind,
            if_neg (by simp only [beq_iff_eq]; exact fun h => hrid h.symm)]
      · simp [expiryAlerts]
    · have hfresh0 : ∀ r ∈ ledger, r.clore_order_id ≠ o.id := by
        rcases hfresh o (List.mem_cons_self o rest) with h | h
        · exact absurd h hin
        · exact h
      have hsave : save_order ledger user_id o
          = (ledger ++ [orderRowOfUpstream user_id o], none) := by
        rw [save_order, if_neg]
        simp only [List.any_eq_true, not_exists, not_and, Bool.not_eq_true]
        intro r hr
        simp [hfresh0 r hr]
      rw [reconcileUpstream, if_neg (by simpa using hin), hsave]
      dsimp only
      rw [ih _ _ hnodup.2 ?transfer2]
      case transfer2 =>
        intro o' ho'
        rcases hfresh o' (List.mem_cons_of_mem o ho') with h | h
        · exact Or.inl h
        · refine Or.inr ?_
          intro r1 hr1
          rcases List.mem_append.mp hr1 with hr1l | hr1r
          · exact h r1 hr1l
          · simp only [List.mem_singleton] at hr1r
            rw [hr1r]
            show o.id ≠ o'.id
            intro hEq
            exact hnodup.1 (hEq ▸ List.mem_map_of_mem (·.id) ho')
      congr 2
      · rw [List.map_append]
        have hnew : phase1New user_id (o :: rest) db_ids
            = orderRowOfUpstream user_id o :: phase1New user_id rest db_ids := by
          simp [phase1New, hin]
        rw [hnew]
        have hrow : (phase1Row rest db_ids now) (orderRowOfUpstream user_id o)
            = orderRowOfUpstream user_id o := by
          rw [phase1Row]
          have : apiFind rest (orderRowOfUpstream user_id o).clore_order_id = none := by
            rw [apiFind_eq_none]
            exact hnodup.1
          rw [this]
        have hmap : ledger.map (phase1Row rest db_ids now)
            = ledger.map (phase1Row (o :: rest) db_ids now) := by
          apply List.map_congr_left
          intro r hr
          rw [phase1Row, phase1Row, apiFind,
            if_neg (by simp only [beq_iff_eq]; exact fun h => hfresh0 r hr h.symm)]
        rw [hmap]
        simp [hrow]
      · simp [expiryAlerts]

theorem expireMissing_closed (user_id : Int) (now : ℚ) (api_ids : List Int) :
    ∀ (db_orders : List LedgerOrder) (ledger : List LedgerOrder) (alerts : List AlertRow),
      (db_orders.map (·.clore_order_id)).Nodup →
      expireMissing user_id now api_ids db_orders ledger alerts
        = (ledger.map (phase2Row (db_orders.map (·.clore_order_id)) api_ids now),
           alerts ++ expiredAlerts user_id api_ids db_orders) := by
  intro db_orders
  induction db_orders with
  | nil =>
    intro ledger alerts _
    simp only [expireMissing, expiredAlerts, List.filter_nil, List.map_nil,
      List.append_nil, Prod.mk.injEq]
    refine ⟨?_, trivial⟩
    have hrow : ∀ r : LedgerOrder, phase2Row [] api_ids now r = r := by
      intro r
      rw [phase2Row, if_neg (by simp)]
    rw [List.map_congr_left fun r _ => hrow r]
    simp
  | cons o rest ih =>
    intro ledger alerts hnodup
    rw [List.map_cons, List.nodup_cons] at hnodup
    have hiff : ∀ r : LedgerOrder, r.clore_order_id ≠ o.clore_order_id →
        ((r.clore_order_id ∈ rest.map (·.clore_order_id) ∧ r.clore_order_id ∉ api_ids)
          ↔ (r.clore_order_id ∈ o.clore_order_id :: rest.map (·.clore_order_id) ∧
             r.clore_order_id ∉ api_ids)) := by
      intro r hr
      constructor
      · rintro ⟨hm, hn⟩
        exact ⟨List.mem_cons_of_mem _ hm, hn⟩
      · rintro ⟨hm, hn⟩
        rcases List.mem_cons.mp hm with hcase | hm'
        · exact absurd hcase hr
        · exact ⟨hm', hn⟩
    by_cases hin : o.clore_order_id ∈ api_ids
    · rw [expireMissing, if_pos (by simpa using hin), ih _ _ hnodup.2]
      simp only [List.map_cons, Prod.mk.injEq]
      refine ⟨?_, ?_⟩
      · apply List.map_congr_left
        intro r _
        by_cases hr : r.clore_order_id = o.clore_order_id
        · rw [phase2Row, phase2Row,
            if_neg (fun hcon => hnodup.1 (hr ▸ hcon.1)),
            if_neg (fun hcon => hcon.2 (hr ▸ hin))]
        · rw [phase2Row, phase2Row, if_congr (hiff r hr) rfl rfl]
      · simp [expiredAlerts, hin]
    · rw [expireMissing, if_neg (by simpa using hin), ih _ _ hnodup.2]
      simp only [List.map_cons, Prod.mk.injEq]
      refine ⟨?_, ?_⟩
      · simp only [update_order_status, List.map_map]
        apply List.map_congr_left
        intro r _
        simp only [Function.comp]
        by_cases hr : r.clore_order_id = o.clore_order_id
        · rw [if_pos (by simp [hr]), phase2Row, phase2Row]
          have hL : ¬((applyStatusUpdate .expired none now r).clore_order_id
              ∈ rest.map (·.clore_order_id) ∧
              (applyStatusUpdate .expired none now r).clore_order_id ∉ api_ids) := by
            intro hcon
            exact hnodup.1 (by
              have hx := hcon.1
              rw [applyStatusUpdate_id, hr] at hx
              exact hx)
          have hR : r.clore_order_id
              ∈ o.clore_order_id :: rest.map (·.clore_order_id) ∧
              r.clore_order_id ∉ api_ids := ⟨by simp [hr], hr ▸ hin⟩
          rw [if_neg hL, if_pos hR]
        · rw [if_neg (by simp [hr]), phase2Row, phase2Row, if_congr (hiff r hr) rfl rfl]
      · simp [expiredAlerts, hin]

theorem mem_get_active_orders {ledger : List LedgerOrder} {uid : Int}
    {r : LedgerOrder} :
    r ∈ get_active_orders ledger uid
      ↔ r ∈ ledger ∧ r.user_id = uid ∧ r.status = .active := by
  simp [get_active_orders, List.mem_filter, and_assoc]

theorem ledger_id_inj {ledger : List LedgerOrder}
    (h : (ledger.map (·.clore_order_id)).Nodup) {a b : LedgerOrder}
    (ha : a ∈ ledger) (hb : b ∈ ledger)
    (heq : a.clore_order_id = b.clore_order_id) : a = b :=
  List.inj_on_of_nodup_map h ha hb heq

theorem dbIds_nodup {ledger : List LedgerOrder} {uid : Int}
    (h : (ledger.map (·.clore_order_id)).Nodup) :
    ((get_active_orders ledger uid).map (·.clore_order_id)).Nodup :=
  h.sublist ((List.filter_sublist ledger).map (·.clore_order_id))

theorem phase1New_mem {uid : Int} {api : List UpstreamOrder} {db_ids : List Int}
    {o : UpstreamOrder} (ho : o ∈ api) (hnin : o.id ∉ db_ids) :
    orderRowOfUpstream uid o ∈ phase1New uid api db_ids := by
  rw [phase1New, List.mem_filterMap]
  exact ⟨o, ho, by rw [if_neg hnin]⟩

theorem phase1New_mem_spec {uid : Int} {api : List UpstreamOrder}
    {db_ids : List Int} {x : LedgerOrder} (hx : x ∈ phase1New uid api db_ids) :
    ∃ o ∈ api, o.id ∉ db_ids ∧ x = orderRowOfUpstream uid o := by
  rw [phase1New, List.mem_filterMap] at hx
  obtain ⟨o, ho, hif⟩ := hx
  by_cases h : o.id ∈ db_ids
  · rw [if_pos h] at hif
    simp at hif
  · rw [if_neg h] at hif
    exact ⟨o, ho, h, (Option.some.inj hif).symm⟩

theorem expiredAlerts_mem {uid : Int} {api_ids : List Int}
    {db_orders : List LedgerOrder} {r : LedgerOrder} (hr : r ∈ db_orders)
    (hnin : r.clore_order_id ∉ api_ids) :
    (⟨uid, "order_expired", r.clore_order_id⟩ : AlertRow)
      ∈ expiredAlerts uid api_ids db_orders := by
  rw [expiredAlerts]
  apply List.mem_map_of_mem
  rw [List.mem_filter]
  exact ⟨hr, by simpa using hnin⟩

/-- The whole reconciliation cycle as a single ledger transformation, under
duplicate-free ids on both sides and no upstream id clashing with a terminal
(or foreign) ledger row. -/
theorem check_active_orders_closed (uid : Int) (now th : ℚ)
    (api : List UpstreamOrder) (ledger : List LedgerOrder) (alerts : List AlertRow)
    (hnodupL : (ledger.map (·.clore_order_id)).Nodup)
    (hnodupA : (api.map (·.id)).Nodup)
    (hfresh : ∀ o ∈ api,
      o.id ∈ (get_active_orders ledger uid).map (·.clore_order_id)
      ∨ ∀ r ∈ ledger, r.clore_order_id ≠ o.id) :
    check_active_orders uid now th api ledger alerts
      = (ledger.map (fun r =>
            phase2Row ((get_active_orders ledger uid).map (·.clore_order_id))
              (api.map (·.id)) now
              (phase1Row api ((get_active_orders ledger uid).map (·.clore_order_id))
                now r))
          ++ phase1New uid api ((get_active_orders ledger uid).map (·.clore_order_id)),
         alerts ++ expiryAlerts uid now th api
           ++ expiredAlerts uid (api.map (·.id)) (get_active_orders ledger uid)) := by
  have hdb : ((get_active_orders ledger uid).map (·.clore_order_id)).Nodup :=
    dbIds_nodup hnodupL
  rw [check_active_orders,
    reconcileUpstream_closed uid now th _ api ledger alerts hnodupA hfresh]
  dsimp only
  rw [expireMissing_closed uid now (api.map (·.id)) (get_active_orders ledger uid)
    _ _ hdb]
  rw [List.map_append, List.map_map]
  have hnew : (phase1New uid api
        ((get_active_orders ledger uid).map (·.clore_order_id))).map
      (phase2Row ((get_active_orders ledger uid).map (·.clore_order_id))
        (api.map (·.id)) now)
      = phase1New uid api ((get_active_orders ledger uid).map (·.clore_order_id)) := by
    have hrow : ∀ x ∈ phase1New uid api
        ((get_active_orders ledger uid).map (·.clore_order_id)),
        phase2Row ((get_active_orders ledger uid).map (·.clore_order_id))
          (api.map (·.id)) now x = x := by
      intro x hx
      obtain ⟨o, ho, _, rfl⟩ := phase1New_mem_spec hx
      rw [phase2Row, if_neg]
      intro hcon
      exact hcon.2 (List.mem_map_of_mem (·.id) ho)
    rw [List.map_congr_left hrow]
    simp
  rw [hnew]
  rfl

theorem reconcileUpstream_preserves (uid : Int) (now th : ℚ) (db_ids : List Int) :
    ∀ (api : List UpstreamOrder) (ledger : List LedgerOrder) (alerts : List AlertRow)
      (r : LedgerOrder), r ∈ ledger → r.clore_order_id ∉ db_ids →
      (∀ l al, reconcileUpstream uid now th db_ids api ledger alerts = .ok (l, al)
        → r ∈ l) ∧
      (∀ l al, reconcileUpstream uid now th db_ids api ledger alerts = .error (l, al)
        → r ∈ l) := by
  intro api
  induction api with
  | nil =>
    intro ledger alerts r hr _
    constructor
    · intro l al h
      rw [reconcileUpstream] at h
      obtain ⟨h1, _⟩ := Prod.mk.injEq .. ▸ Except.ok.inj h
      exact h1 ▸ hr
    · intro l al h
      rw [reconcileUpstream] at h
      simp at h
  | cons o rest ih =>
    intro ledger alerts r hr hnin
    by_cases hin : o.id ∈ db_ids
    · rw [reconcileUpstream, if_pos (by simpa using hin)]
      have hne : r.clore_order_id ≠ o.id := fun h => hnin (h ▸ hin)
      have hr1 : r ∈ (update_order_status ledger o.id .active (some o.spend) now).1 := by
        simp only [update_order_status]
        have : (if r.clore_order_id == o.id
            then applyStatusUpdate .active (some o.spend) now r else r) = r := by
          rw [if_neg (by simp [hne])]
        exact this ▸ List.mem_map_of_mem _ hr
      exact ih _ _ r hr1 hnin
    · rw [reconcileUpstream, if_neg (by simpa using hin)]
      rcases hcl : ledger.any fun r0 => r0.clore_order_id == o.id with _ | _
      · have hsave : save_order ledger uid o
            = (ledger ++ [orderRowOfUpstream uid o], none) := by
          rw [save_order, if_neg (by rw [hcl]; simp)]
        rw [hsave]
        dsimp only
        exact ih _ _ r (List.mem_append_left _ hr) hnin
      · have hsave : save_order ledger uid o = (ledger, some uniqueViolationMsg) := by
          rw [save_order, if_pos hcl]
        rw [hsave]
        dsimp only
        constructor
        · intro l al h
          simp at h
        · intro l al h
          obtain ⟨h1, _⟩ := Prod.mk.injEq .. ▸ Except.error.inj h
          exact h1 ▸ hr

theorem expireMissing_preserves (uid : Int) (now : ℚ) (api_ids : List Int) :
    ∀ (db_orders ledger : List LedgerOrder) (alerts : List AlertRow)
      (r : LedgerOrder), r ∈ ledger →
      r.clore_order_id ∉ db_orders.map (·.clore_order_id) →
      r ∈ (expireMissing uid now api_ids db_orders ledger alerts).1 := by
  intro db_orders
  induction db_orders with
  | nil =>
    intro ledger alerts r hr _
    exact hr
  | cons o rest ih =>
    intro ledger alerts r hr hnin
    rw [List.map_cons] at hnin
    have hne : r.clore_order_id ≠ o.clore_order_id := fun h =>
      hnin (h ▸ List.mem_cons_self _ _)
    have hnin' : r.clore_order_id ∉ rest.map (·.clore_order_id) := fun h =>
      hnin (List.mem_cons_of_mem _ h)
    rw [expireMissing]
    split
    · exact ih _ _ r hr hnin'
    · apply ih
      · simp only [update_order_status]
        have : (if r.clore_order_id == o.clore_order_id
            then applyStatusUpdate .expired none now r else r) = r := by
          rw [if_neg (by simp [hne])]
        exact this ▸ List.mem_map_of_mem _ hr
      · exact hnin'

/-- A terminal row is never modified by a reconciliation cycle: phase 1 only
updates rows whose id is among the captured active ids (terminal rows have a
different id when ids are unique, and a clashing insert aborts without
touching existing rows), and phase 2 only expires rows read as active. -/
theorem terminal_rows_untouched (uid : Int) (now th : ℚ)
    (api : List UpstreamOrder) (ledger : List LedgerOrder) (alerts : List AlertRow)
    (hnodupL : (ledger.map (·.clore_order_id)).Nodup) :
    ∀ r ∈ ledger, r.status ≠ .active →
      r ∈ (check_active_orders uid now th api ledger alerts).1 := by
  intro r hr hterm
  have hnin : r.clore_order_id
      ∉ (get_active_orders ledger uid).map (·.clore_order_id) := by
    intro hmem
    obtain ⟨a, ha, haid⟩ := List.mem_map.mp hmem
    obtain ⟨haL, _, hact⟩ := mem_get_active_orders.mp ha
    have : a = r := ledger_id_inj hnodupL haL hr haid
    exact hterm (this ▸ hact)
  obtain ⟨hok, herr⟩ :=
    reconcileUpstream_preserves uid now th
      ((get_active_orders ledger uid).map (·.clore_order_id)) api ledger alerts
      r hr hnin
  rw [check_active_orders]
  rcases hrec : reconcileUpstream uid now th
      ((get_active_orders ledger uid).map (·.clore_order_id)) api ledger alerts
    with ⟨l1, al1⟩ | ⟨l1, al1⟩
  · rw [hrec]
    exact herr l1 al1 hrec
  · rw [hrec]
    exact expireMissing_preserves uid now (api.map (·.id))
      (get_active_orders ledger uid) l1 al1 r (hok l1 al1 hrec) hnin

theorem applyStatusUpdate_user (st : OrderStatus) (sp : Option ℚ) (now : ℚ)
    (r : LedgerOrder) : (applyStatusUpdate st sp now r).user_id = r.user_id := rfl

theorem applyStatusUpdate_status (st : OrderStatus) (sp : Option ℚ) (now : ℚ)
    (r : LedgerOrder) : (applyStatusUpdate st sp now r).status = st := rfl

theorem phase1Row_id (api : List UpstreamOrder) (db_ids : List Int) (now : ℚ)
    (r : LedgerOrder) :
    (phase1Row api db_ids now r).clore_order_id = r.clore_order_id := by
  rw [phase1Row]
  split
  · split <;> rfl
  · rfl

theorem phase2Row_id (db_ids api_ids : List Int) (now : ℚ) (r : LedgerOrder) :
    (phase2Row db_ids api_ids now r).clore_order_id = r.clore_order_id := by
  rw [phase2Row]
  split <;> rfl

theorem rowF_active {api : List UpstreamOrder} {db_ids : List Int} {now : ℚ}
    (hnodupA : (api.map (·.id)).Nodup) {o : UpstreamOrder} {r : LedgerOrder}
    (ho : o ∈ api) (hin : o.id ∈ db_ids) (hrid : r.clore_order_id = o.id) :
    phase2Row db_ids (api.map (·.id)) now (phase1Row api db_ids now r)
      = applyStatusUpdate .active (some o.spend) now r := by
  have hfind : apiFind api r.clore_order_id = some o := by
    rw [hrid]
    exact apiFind_of_nodup hnodupA ho
  rw [phase1Row, hfind]
  dsimp only
  rw [if_pos (by rw [hrid]; exact hin)]
  rw [phase2Row, if_neg]
  intro hcon
  apply hcon.2
  rw [applyStatusUpdate_id, hrid]
  exact List.mem_map_of_mem _ ho

theorem rowF_expired {api : List UpstreamOrder} {db_ids : List Int} {now : ℚ}
    {r : LedgerOrder} (hnapi : r.clore_order_id ∉ api.map (·.id))
    (hdb : r.clore_order_id ∈ db_ids) :
    phase2Row db_ids (api.map (·.id)) now (phase1Row api db_ids now r)
      = applyStatusUpdate .expired none now r := by
  rw [phase1Row, apiFind_eq_none.mpr hnapi]
  dsimp only
  rw [phase2Row, if_pos ⟨hdb, hnapi⟩]

theorem rowF_frozen {api : List UpstreamOrder} {db_ids api_ids : List Int}
    {now : ℚ} {r : LedgerOrder} (hfind : apiFind api r.clore_order_id = none)
    (hnotdb : r.clore_order_id ∉ db_ids) :
    phase2Row db_ids api_ids now (phase1Row api db_ids now r) = r := by
  rw [phase1Row, hfind]
  dsimp only
  rw [phase2Row, if_neg (fun hcon => hnotdb hcon.1)]

/-- C1 (amended): one reconciliation cycle behaves as specified — upstream
orders not locally active are inserted active, locally active ones are
refreshed with their spend, locally active orders absent upstream are expired
with an `order_expired` alert, terminal rows are untouched, and the owner's
active set afterwards equals exactly the upstream id set — provided ids are
duplicate-free and no upstream id collides with a terminal (or another
owner's) ledger row, the situation in which the unique-id constraint aborts
the cycle instead. -/
theorem reconciliation_converges (uid : Int) (now th : ℚ)
    (api : List UpstreamOrder) (ledger : List LedgerOrder) (alerts : List AlertRow)
    (hnodupL : (ledger.map (·.clore_order_id)).Nodup)
    (hnodupA : (api.map (·.id)).Nodup)
    (hfresh : ∀ o ∈ api,
      o.id ∈ (get_active_orders ledger uid).map (·.clore_order_id)
      ∨ ∀ r ∈ ledger, r.clore_order_id ≠ o.id) :
    ReconSpec uid now th api ledger alerts := by
  have hclosed := check_active_orders_closed uid now th api ledger alerts
    hnodupL hnodupA hfresh
  unfold ReconSpec
  refine ⟨?_, ?_, ?_, terminal_rows_untouched uid now th api ledger alerts hnodupL, ?_⟩
  · -- unseen upstream ids inserted as fresh active rows
    intro o ho hnin
    rw [hclosed]
    exact List.mem_append_right _ (phase1New_mem ho hnin)
  · -- locally active upstream ids refreshed
    intro o ho hin r hr hrid
    rw [hclosed]
    apply List.mem_append_left
    exact rowF_active hnodupA ho hin hrid ▸ List.mem_map_of_mem _ hr
  · -- locally active orders absent upstream expired and alerted
    intro r hr hu hst hnapi
    have hdb : r.clore_order_id
        ∈ (get_active_orders ledger uid).map (·.clore_order_id) :=
      List.mem_map_of_mem _ (mem_get_active_orders.mpr ⟨hr, hu, hst⟩)
    rw [hclosed]
    constructor
    · apply List.mem_append_left
      exact rowF_expired hnapi hdb ▸ List.mem_map_of_mem _ hr
    · exact List.mem_append_right _
        (expiredAlerts_mem (mem_get_active_orders.mpr ⟨hr, hu, hst⟩) hnapi)
  · -- the active set afterwards is exactly the upstream id set
    intro i
    rw [hclosed]
    constructor
    · rintro ⟨r', hr', hu', hst', hid'⟩
      rcases List.mem_append.mp hr' with hmap | hnew
      · obtain ⟨r, hrL, hFr⟩ := List.mem_map.mp hmap
        rcases hfind : apiFind api r.clore_order_id with _ | o
        · by_cases hcond : r.clore_order_id
              ∈ (get_active_orders ledger uid).map (·.clore_order_id) ∧
              r.clore_order_id ∉ api.map (·.id)
          · exfalso
            have hre : r' = applyStatusUpdate .expired none now r := by
              rw [← hFr, phase1Row, hfind]
              dsimp only
              rw [phase2Row, if_pos hcond]
            rw [hre] at hst'
            simp [applyStatusUpdate] at hst'
          · exfalso
            have hre : r' = r := by
              rw [← hFr, rowF_frozen hfind (fun h => hcond ⟨h, apiFind_eq_none.mp hfind⟩)]
            apply hcond
            refine ⟨?_, apiFind_eq_none.mp hfind⟩
            rw [hre] at hu' hst'
            exact List.mem_map_of_mem _ (mem_get_active_orders.mpr ⟨hrL, hu', hst'⟩)
        · obtain ⟨ho, hoid⟩ := apiFind_some hfind
          have hid : r'.clore_order_id = r.clore_order_id := by
            rw [← hFr, phase2Row_id, phase1Row_id]
          rw [List.mem_map]
          exact ⟨o, ho, by rw [hoid, ← hid, hid']⟩
      · obtain ⟨o, ho, _, rfl⟩ := phase1New_mem_spec hnew
        rw [List.mem_map]
        exact ⟨o, ho, hid'⟩
    · intro hi
      obtain ⟨o, ho, hoid⟩ := List.mem_map.mp hi
      by_cases hin : o.id ∈ (get_active_orders ledger uid).map (·.clore_order_id)
      · obtain ⟨a, ha, haid⟩ := List.mem_map.mp hin
        obtain ⟨haL, hau, hast⟩ := mem_get_active_orders.mp ha
        refine ⟨applyStatusUpdate .active (some o.spend) now a, ?_, ?_, rfl, ?_⟩
        · apply List.mem_append_left
          exact rowF_active hnodupA ho hin haid ▸ List.mem_map_of_mem _ haL
        · rw [applyStatusUpdate_user]
          exact hau
        · rw [applyStatusUpdate_id, haid, hoid]
      · refine ⟨orderRowOfUpstream uid o,
          List.mem_append_right _ (phase1New_mem ho hin), rfl, rfl, hoid⟩

/-- C1 counterexample: ledger holds order 7 in the terminal state
`'cancelled'`; upstream still lists 7 and also a genuinely new order 8.  The
claim demands that after reconciliation the active set be exactly `{8}` (the
upstream ids not locally cancelled).  In the code, id 7 is not among the
locally *active* ids, so the cycle re-inserts it, violates the unique
`clore_order_id` constraint, and the outer `except` abandons the cycle:
order 8 is never created and the active set stays empty. -/
theorem reconciliation_claim_cex :
    check_active_orders 1 0 24
        [⟨7, 2, 3, 0, 0⟩, ⟨8, 2, 3, 0, 0⟩]
        [⟨7, 1, .cancelled, 3, 0, 0, none, none⟩] []
      = ([⟨7, 1, .cancelled, 3, 0, 0, none, none⟩], []) ∧
    (8 : Int) ∈ ([⟨7, 2, 3, 0, 0⟩, ⟨8, 2, 3, 0, 0⟩] : List UpstreamOrder).map (·.id) ∧
    (∀ r ∈ ([⟨7, 1, .cancelled, 3, 0, 0, none, none⟩] : List LedgerOrder),
      ¬(r.status = .cancelled ∧ r.clore_order_id = 8)) ∧
    (∀ r ∈ (check_active_orders 1 0 24
        [⟨7, 2, 3, 0, 0⟩, ⟨8, 2, 3, 0, 0⟩]
        [⟨7, 1, .cancelled, 3, 0, 0, none, none⟩] []).1,
      ¬(r.status = .active ∧ r.clore_order_id = 8)) := by
  refine ⟨by decide, by decide, by decide, by decide⟩

/-- C1 witness: the amended reconciliation guarantee evaluated on the
spec's scenario — upstream `{101, 102}` active, ledger `{101 active,
99 expired}`. -/
theorem reconciliation_converges_witness :
    ((([⟨101, 1, .active, 3, 0, 0, none, none⟩,
        ⟨99, 1, .expired, 3, 0, 0, none, none⟩] : List LedgerOrder).map
        (·.clore_order_id)).Nodup ∧
     (([⟨101, 2, 3, 0, 0⟩, ⟨102, 2, 3, 0, 0⟩] : List UpstreamOrder).map (·.id)).Nodup ∧
     (∀ o ∈ ([⟨101, 2, 3, 0, 0⟩, ⟨102, 2, 3, 0, 0⟩] : List UpstreamOrder),
       o.id ∈ (get_active_orders
           [⟨101, 1, .active, 3, 0, 0, none, none⟩,
            ⟨99, 1, .expired, 3, 0, 0, none, none⟩] 1).map (·.clore_order_id)
       ∨ ∀ r ∈ ([⟨101, 1, .active, 3, 0, 0, none, none⟩,
            ⟨99, 1, .expired, 3, 0, 0, none, none⟩] : List LedgerOrder),
           r.clore_order_id ≠ o.id)) ∧
    ReconSpec 1 0 24 [⟨101, 2, 3, 0, 0⟩, ⟨102, 2, 3, 0, 0⟩]
      [⟨101, 1, .active, 3, 0, 0, none, none⟩,
       ⟨99, 1, .expired, 3, 0, 0, none, none⟩] [] :=
  ⟨⟨by decide, by decide, by decide⟩,
   reconciliation_converges 1 0 24 _ _ [] (by decide) (by decide) (by decide)⟩

/-- C3 (amended): `update_order_status` performs an unconditional `UPDATE`:
it never raises — when no row matches it returns `False` and leaves the
table unchanged, and when a row matches it overwrites that row's status
regardless of the current (possibly terminal) state, so terminal states are
*not* protected at this layer; what does hold is that the reconciliation
monitor itself never changes a terminal row (with duplicate-free ids), since
it only issues status updates for ids captured from the active set. -/
theorem update_order_status_unconditional :
    (∀ (ledger : List LedgerOrder) (i : Int) (st : OrderStatus) (sp : Option ℚ)
      (now : ℚ),
      ((update_order_status ledger i st sp now).2 = false
        ↔ ∀ r ∈ ledger, r.clore_order_id ≠ i) ∧
      ((update_order_status ledger i st sp now).2 = false →
        (update_order_status ledger i st sp now).1 = ledger) ∧
      (∀ r ∈ ledger, r.clore_order_id ≠ i →
        r ∈ (update_order_status ledger i st sp now).1) ∧
      (∀ r ∈ ledger, r.clore_order_id = i →
        applyStatusUpdate st sp now r ∈ (update_order_status ledger i st sp now).1 ∧
        (applyStatusUpdate st sp now r).status = st)) ∧
    (∀ (uid : Int) (now th : ℚ) (api : List UpstreamOrder)
      (ledger : List LedgerOrder) (alerts : List AlertRow),
      (ledger.map (·.clore_order_id)).Nodup →
      ∀ r ∈ ledger, r.status ≠ .active →
        r ∈ (check_active_orders uid now th api ledger alerts).1) := by
  constructor
  · intro ledger i st sp now
    have hiff : (update_order_status ledger i st sp now).2 = false
        ↔ ∀ r ∈ ledger, r.clore_order_id ≠ i := by
      simp [update_order_status, List.any_eq_true]
    refine ⟨hiff, ?_, ?_, ?_⟩
    · intro h
      have hall := hiff.mp h
      simp only [update_order_status]
      rw [List.map_congr_left fun r hr =>
        (if_neg (by simp [hall r hr]) :
          (if r.clore_order_id == i then applyStatusUpdate st sp now r else r) = r)]
      simp
    · intro r hr hne
      simp only [update_order_status]
      exact (if_neg (by simp [hne]) :
        (if r.clore_order_id == i then applyStatusUpdate st sp now r else r) = r)
        ▸ List.mem_map_of_mem _ hr
    · intro r hr heq
      refine ⟨?_, rfl⟩
      simp only [update_order_status]
      exact (if_pos (by simp [heq]) :
        (if r.clore_order_id == i then applyStatusUpdate st sp now r else r)
          = applyStatusUpdate st sp now r)
        ▸ List.mem_map_of_mem _ hr
  · intro uid now th api ledger alerts hnodup r hr hterm
    exact terminal_rows_untouched uid now th api ledger alerts hnodup r hr hterm

/-- C3 witness: the overwrite clause evaluated on a cancelled row updated to
`'expired'`, and the monitor clause on a ledger holding only an expired
row. -/
theorem update_order_status_unconditional_witness :
    applyStatusUpdate .expired none 20 ⟨5, 1, .cancelled, 3, 0, 0, none, some 10⟩
      ∈ (update_order_status
          [⟨5, 1, .cancelled, 3, 0, 0, none, some 10⟩] 5 .expired none 20).1 ∧
    (([⟨99, 1, .expired, 3, 0, 0, none, none⟩] : List LedgerOrder).map
        (·.clore_order_id)).Nodup ∧
    (⟨99, 1, .expired, 3, 0, 0, none, none⟩ : LedgerOrder)
      ∈ (check_active_orders 1 0 24 []
          [⟨99, 1, .expired, 3, 0, 0, none, none⟩] []).1 :=
  ⟨((update_order_status_unconditional.1
      [⟨5, 1, .cancelled, 3, 0, 0, none, some 10⟩] 5 .expired none 20).2.2.2
      ⟨5, 1, .cancelled, 3, 0, 0, none, some 10⟩ (by decide) (by decide)).1,
   by decide,
   update_order_status_unconditional.2 1 0 24 []
     [⟨99, 1, .expired, 3, 0, 0, none, none⟩] [] (by decide)
     ⟨99, 1, .expired, 3, 0, 0, none, none⟩ (by decide) (by decide)⟩

end CloreBot
